import Mathlib

/-!
Verification of the Sokoban puzzle engine (`src/main.py`).

The Python source is shallowly embedded: each Python method becomes a pure
Lean function.  In-place mutation of `self.tiles` is modelled by threading
the updated value; a Python `IndexError` (the only exception the engine can
raise during move resolution) is modelled by `Option`, `none` standing for
an uncaught exception and `some (b, s)` for an ordinary boolean return `b`
with resulting state `s`.  Python list indexing (negative-index wrap-around,
`IndexError` out of range) and list slicing are reproduced by `pyGet`,
`pySet` and `pySlice` below.
-/

/-- Foreground tile (`class Tile` in `main.py`). -/
inductive Tile where
  | EMPTY
  | PLAYER
  | WALL
  | BOX
deriving DecidableEq, Repr

/-- Background tile (`class BackgroundTile` in `main.py`). -/
inductive BackgroundTile where
  | EMPTY
  | TARGET
deriving DecidableEq, Repr

/-- `parse_tile` from `main.py`; the raised exception on an unknown
character becomes `none`. -/
def parse_tile (c : Char) : Option Tile :=
  if c = '.' then some Tile.EMPTY
  else if c = 'p' then some Tile.PLAYER
  else if c = '#' then some Tile.WALL
  else if c = 'x' then some Tile.BOX
  else none

/-- `parse_background_tile` from `main.py`. -/
def parse_background_tile (c : Char) : Option BackgroundTile :=
  if c = '.' then some BackgroundTile.EMPTY
  else if c = 'o' then some BackgroundTile.TARGET
  else none

/-- `class Vector2` from `main.py` (a pair of `int` coordinates). -/
structure Vector2 where
  x : Int
  y : Int
deriving DecidableEq, Repr

instance : Add Vector2 := ⟨fun a b => ⟨a.x + b.x, a.y + b.y⟩⟩

theorem Vector2.add_def (a b : Vector2) : a + b = ⟨a.x + b.x, a.y + b.y⟩ := rfl

/-- Python list index resolution: a negative index wraps around by the
length of the list; the result is the resolved non-negative index, or
`none` when Python would raise `IndexError`. -/
def pyIdx (n : Nat) (i : Int) : Option Nat :=
  let j : Int := if i < 0 then (n : Int) + i else i
  if 0 ≤ j ∧ j < (n : Int) then some j.toNat else none

/-- Python `l[i]` for reading. -/
def pyGet (l : List α) (i : Int) : Option α :=
  (pyIdx l.length i).bind fun j => l.get? j

/-- Python `l[i] = v`. -/
def pySet (l : List α) (i : Int) (v : α) : Option (List α) :=
  (pyIdx l.length i).map fun j => l.set j v

/-- Python `a[p.x][p.y]` (`Vector2.access` in `main.py`). -/
def pyGet2 (a : List (List α)) (p : Vector2) : Option α :=
  (pyGet a p.x).bind fun row => pyGet row p.y

/-- Python `a[p.x][p.y] = v` (`Vector2.set` in `main.py`): the outer read
`a[p.x]` may raise, then the element assignment into that row may raise. -/
def pySet2 (a : List (List α)) (p : Vector2) (v : α) : Option (List (List α)) :=
  (pyIdx a.length p.x).bind fun i =>
    (a.get? i).bind fun row =>
      (pySet row p.y v).map fun row' => a.set i row'

theorem pyIdx_nonneg (n : Nat) (i : Int) (h : 0 ≤ i) :
    pyIdx n i = if i < (n : Int) then some i.toNat else none := by
  unfold pyIdx
  have : ¬ i < 0 := by omega
  simp [this, h]

theorem pyGet_nonneg (l : List α) (i : Int) (h : 0 ≤ i) :
    pyGet l i = l.get? i.toNat := by
  unfold pyGet
  rw [pyIdx_nonneg _ _ h]
  by_cases hlt : i < (l.length : Int)
  · simp [hlt]
  · have h2 : l.get? i.toNat = none := List.get?_eq_none.2 (by omega)
    simp [hlt, h2]
    omega

theorem pySet_nonneg (l : List α) (i : Int) (v : α) (h : 0 ≤ i) :
    pySet l i v = if i.toNat < l.length then some (l.set i.toNat v) else none := by
  unfold pySet
  rw [pyIdx_nonneg _ _ h]
  by_cases hlt : i < (l.length : Int)
  · have : i.toNat < l.length := by omega
    simp [hlt, this]
  · have : ¬ i.toNat < l.length := by omega
    simp [hlt, this]

/-- Reading a 2-D cell at a canonical (componentwise non-negative)
position reduces to `Nat`-indexed list reads. -/
theorem pyGet2_canon (a : List (List α)) (p : Vector2)
    (hx : 0 ≤ p.x) (hy : 0 ≤ p.y) :
    pyGet2 a p = (a.get? p.x.toNat).bind fun row => row.get? p.y.toNat := by
  unfold pyGet2
  rw [pyGet_nonneg _ _ hx]
  cases hrow : a.get? p.x.toNat with
  | none => rfl
  | some row => simp [pyGet_nonneg _ _ hy]

/-- Writing a 2-D cell at a canonical position reduces to `Nat`-indexed
list operations. -/
theorem pySet2_canon (a : List (List α)) (p : Vector2) (v : α)
    (hx : 0 ≤ p.x) (hy : 0 ≤ p.y) :
    pySet2 a p v =
      if p.x.toNat < a.length then
        (a.get? p.x.toNat).bind fun row =>
          if p.y.toNat < row.length then
            some (a.set p.x.toNat (row.set p.y.toNat v))
          else none
      else none := by
  unfold pySet2
  rw [pyIdx_nonneg _ _ hx]
  by_cases hlt : p.x.toNat < a.length
  · have hlt' : p.x < (a.length : Int) := by omega
    simp only [hlt', if_pos, hlt, dif_pos, Option.some_bind]
    cases hrow : a.get? p.x.toNat with
    | none =>
      rw [List.get?_eq_none] at hrow
      omega
    | some row =>
      simp only [Option.some_bind]
      rw [pySet_nonneg _ _ _ hy]
      by_cases hy2 : p.y.toNat < row.length
      · simp [hy2]
      · simp [hy2]
  · have hlt' : ¬ p.x < (a.length : Int) := by omega
    simp [hlt', hlt]

/-- `class State` from `main.py`: two tile layers plus the `length` and
`width` fields computed in `__init__` (and never updated afterwards). -/
structure State where
  tiles : List (List Tile)
  background : List (List BackgroundTile)
  length : Nat
  width : Nat
deriving DecidableEq, Repr

/-- `State.__init__`: stores the layers and sets `length = len(tiles)`,
`width = len(tiles[0])`; the read `tiles[0]` raises `IndexError` (`none`)
when `tiles` is empty. -/
def mkState (tiles : List (List Tile)) (background : List (List BackgroundTile)) :
    Option State :=
  match tiles with
  | [] => none
  | r0 :: _ => some ⟨tiles, background, tiles.length, r0.length⟩

/-- `State.is_inbounds`: `0 <= p.x < self.length and 0 <= p.y < self.width`. -/
def State.is_inbounds (s : State) (p : Vector2) : Bool :=
  decide (0 ≤ p.x ∧ p.x < (s.length : Int) ∧ 0 ≤ p.y ∧ p.y < (s.width : Int))

/-- `State.positions`: all positions in row-major order (the generator
ranges over `range(self.length) × range(self.width)`). -/
def State.positionsList (s : State) : List Vector2 :=
  (List.range s.length).flatMap fun (i : Nat) =>
    (List.range s.width).map fun (j : Nat) => ⟨(i : Int), (j : Int)⟩

/-- `CAN_MULTIPUSH = False` in `main.py`. -/
def CAN_MULTIPUSH : Bool := false

/-- `State.move_box`.  The Python method is recursive
(`self.move_box(target, direction)` in the chained-push branch); the
recursion is made structural with a fuel argument.  Since
`CAN_MULTIPUSH = false` the recursive branch is dead, so any fuel ≥ 1
gives the source behaviour; callers pass `length + width`, an upper bound
on any straight-line push chain.  `none` models an uncaught exception. -/
def State.move_box : Nat → State → Vector2 → Vector2 → Option (Bool × State)
  | 0, _, _, _ => none
  | Nat.succ fuel, s, box_pos, direction =>
    let target := box_pos + direction
    if ¬ s.is_inbounds target then some (false, s)
    else
      match pyGet2 s.tiles target with
      | none => none
      | some t =>
        if t = Tile.WALL then some (false, s)
        else
          let chained : Option (Bool × State) :=
            if t = Tile.BOX then
              if CAN_MULTIPUSH then State.move_box fuel s target direction
              else some (false, s)
            else some (true, s)
          match chained with
          | none => none
          | some (false, s1) => some (false, s1)
          | some (true, s1) =>
            match pySet2 s1.tiles box_pos Tile.EMPTY with
            | none => none
            | some t1 =>
              match pySet2 t1 target Tile.BOX with
              | none => none
              | some t2 => some (true, { s1 with tiles := t2 })

/-- `State.move_player`: mirror of the Python method, threading the
mutated `tiles`; footnote on fuel as in `State.move_box`. -/
def State.move_player (s : State) (player_pos direction : Vector2) :
    Option (Bool × State) :=
  let target := player_pos + direction
  if ¬ s.is_inbounds target then some (false, s)
  else
    match pyGet2 s.tiles target with
    | none => none
    | some t =>
      if t = Tile.WALL then some (false, s)
      else
        let afterBox : Option (Bool × State) :=
          if t = Tile.BOX then State.move_box (s.length + s.width) s target direction
          else some (true, s)
        match afterBox with
        | none => none
        | some (false, s1) => some (false, s1)
        | some (true, s1) =>
          match pySet2 s1.tiles player_pos Tile.EMPTY with
          | none => none
          | some t1 =>
            match pySet2 t1 target Tile.PLAYER with
            | none => none
            | some t2 => some (true, { s1 with tiles := t2 })

/-- Loop body of `State.win`: Python reads `self.tiles[i][j]` first and,
thanks to `and` short-circuiting, reads `self.background[i][j]` only when
the tile is a box. -/
def winAux (s : State) : List Vector2 → Option Bool
  | [] => some true
  | p :: rest =>
    match pyGet2 s.tiles p with
    | none => none
    | some t =>
      if t = Tile.BOX then
        match pyGet2 s.background p with
        | none => none
        | some b =>
          if b ≠ BackgroundTile.TARGET then some false else winAux s rest
      else winAux s rest

/-- `State.win`. -/
def State.win (s : State) : Option Bool :=
  winAux s s.positionsList

/-- `UP`, `DOWN`, `LEFT`, `RIGHT` from `main.py`. -/
def UP : Vector2 := ⟨-1, 0⟩

def DOWN : Vector2 := ⟨1, 0⟩

def LEFT : Vector2 := ⟨0, -1⟩

def RIGHT : Vector2 := ⟨0, 1⟩

/-- `class Game`: `self.state` is the history list of snapshots. -/
structure Game where
  state : List State
deriving DecidableEq, Repr

/-- `Game.__init__`. -/
def Game.init (initial_state : State) : Game := ⟨[initial_state]⟩

/-- `self.state[-1]` (`none` would be an `IndexError` on an empty history,
which the engine never produces). -/
def Game.current (g : Game) : Option State := g.state.getLast?

/-- Loop body of `Game.move`: scan the copy's positions in row-major
order; at each `Player` tile attempt `move_player`; the first success
ends the scan.  Failed attempts leave the copy unmutated and the scan
continues.  Result: `none` = exception, `some none` = loop finished
without success (`move` returns `False`), `some (some s)` = success with
the mutated copy. -/
def moveScan (direction : Vector2) : State → List Vector2 → Option (Option State)
  | _, [] => some none
  | s, p :: rest =>
    match pyGet2 s.tiles p with
    | none => none
    | some t =>
      if t = Tile.PLAYER then
        match s.move_player p direction with
        | none => none
        | some (true, s') => some (some s')
        | some (false, s') => moveScan direction s' rest
      else moveScan direction s rest

/-- `Game.move`: deep-copy the last snapshot (value copy in this
embedding), scan for a player, and append the mutated copy on success. -/
def Game.move (g : Game) (direction : Vector2) : Option (Bool × Game) :=
  match g.state.getLast? with
  | none => none
  | some s =>
    match moveScan direction s s.positionsList with
    | none => none
    | some none => some (false, g)
    | some (some s') => some (true, ⟨g.state ++ [s']⟩)

/-- `Game.undo`. -/
def Game.undo (g : Game) : Bool × Game :=
  if 1 < g.state.length then (true, ⟨g.state.dropLast⟩) else (false, g)

/-- Total number of `Box` tiles in a tile layer. -/
def boxCount (tiles : List (List Tile)) : Nat :=
  (tiles.map fun r => r.countP fun t => t = Tile.BOX).sum

/-- Total number of `Player` tiles in a tile layer. -/
def playerCount (tiles : List (List Tile)) : Nat :=
  (tiles.map fun r => r.countP fun t => t = Tile.PLAYER).sum

/-- The grid shape the level grammar of the spec promises: the stored
`length`/`width` fields match the actual layer, every row having exactly
`width` entries. -/
def rectTiles (s : State) : Prop :=
  s.tiles.length = s.length ∧ ∀ r ∈ s.tiles, r.length = s.width

/-- Rectangularity of the background layer. -/
def rectBackground (s : State) : Prop :=
  s.background.length = s.length ∧ ∀ r ∈ s.background, r.length = s.width

instance (s : State) : Decidable (rectTiles s) := by
  unfold rectTiles; infer_instance

instance (s : State) : Decidable (rectBackground s) := by
  unfold rectBackground; infer_instance

/-- Python `str.splitlines` restricted to `'\n'` separators (the only line
break occurring in the level texts considered): every newline terminates a
line and a trailing empty segment is not reported. -/
def splitlinesAux (cur : List Char) : List Char → List (List Char)
  | [] => if cur.isEmpty then [] else [cur.reverse]
  | c :: cs =>
    if c = '\n' then cur.reverse :: splitlinesAux [] cs
    else splitlinesAux (c :: cur) cs

/-- Python `level_str.splitlines()`. -/
def splitlines (cs : List Char) : List (List Char) :=
  splitlinesAux [] cs

/-- Whitespace recognised by Python `str.split()` (the subset occurring in
a single header line). -/
def isSpaceChar (c : Char) : Bool :=
  c = ' ' ∨ c = '\t' ∨ c = '\r' ∨ c = '\n'

/-- Python `str.split()` with no separator: split on whitespace runs,
reporting no empty tokens. -/
def splitWSAux (cur : List Char) : List Char → List (List Char)
  | [] => if cur.isEmpty then [] else [cur.reverse]
  | c :: cs =>
    if isSpaceChar c then
      if cur.isEmpty then splitWSAux [] cs
      else cur.reverse :: splitWSAux [] cs
    else splitWSAux (c :: cur) cs

/-- Python `line.split()`. -/
def splitWS (cs : List Char) : List (List Char) :=
  splitWSAux [] cs

/-- Numeric value of a decimal digit. -/
def digitVal (c : Char) : Option Nat :=
  if '0' ≤ c ∧ c ≤ '9' then some (c.toNat - '0'.toNat) else none

def digitsValAux (acc : Nat) : List Char → Option Nat
  | [] => some acc
  | c :: cs =>
    match digitVal c with
    | none => none
    | some d => digitsValAux (acc * 10 + d) cs

/-- Value of a non-empty all-digit string. -/
def digitsVal : List Char → Option Nat
  | [] => none
  | cs => digitsValAux 0 cs

/-- Python `int(token)` on a `str.split()` token: an optional sign
followed by at least one decimal digit; a `ValueError` becomes `none`. -/
def pyInt (cs : List Char) : Option Int :=
  match cs with
  | '-' :: ds => (digitsVal ds).map fun n => -(n : Int)
  | '+' :: ds => (digitsVal ds).map fun n => (n : Int)
  | ds => (digitsVal ds).map fun n => (n : Int)

/-- Python slice `l[start:stop]` (step 1): negative bounds wrap by the
length, then both bounds are clamped into `[0, len]`. -/
def pySlice (l : List α) (start stop : Int) : List α :=
  let n : Int := l.length
  let norm : Int → Nat := fun i =>
    (if i < 0 then max (n + i) 0 else min i n).toNat
  (l.take (norm stop)).drop (norm start)

/-- Python `list(map(f, xs))` where `f` may raise: `none` as soon as any
element raises. -/
def mapOpt (f : α → Option β) : List α → Option (List β)
  | [] => some []
  | a :: as =>
    match f a with
    | none => none
    | some b => (mapOpt f as).map fun bs => b :: bs

/-- `parse_level` from `main.py`.  All exceptions inside the `try` block
(header unpacking, `int` conversion, unknown tile characters, and the
`tiles[0]` read in `State.__init__`) are caught and turned into `None`;
note that neither the header `width` nor the individual row lengths are
ever validated. -/
def parse_level (text : List Char) : Option State :=
  match splitlines text with
  | [] => none
  | l0 :: _ =>
    match splitWS l0 with
    | [tok1, tok2] =>
      match pyInt tok1, pyInt tok2 with
      | some length, some _width =>
        match mapOpt (fun ln => mapOpt parse_tile ln)
                (pySlice (splitlines text) 1 (length + 1)),
              mapOpt (fun ln => mapOpt parse_background_tile ln)
                (pySlice (splitlines text) (length + 1) (2 * length + 1)) with
        | some tiles, some background => mkState tiles background
        | _, _ => none
      | _, _ => none
    | _ => none

/-- A single command issued by the surrounding event loop. -/
inductive Op where
  | move (direction : Vector2)
  | undo
deriving DecidableEq, Repr

/-- Apply one command to the game; `none` models an uncaught exception
inside `Game.move`. -/
def applyOp (g : Game) : Op → Option Game
  | Op.move d => (g.move d).map fun r => r.2
  | Op.undo => some (g.undo).2

/-- Run a sequence of commands. -/
def runOps (g : Game) : List Op → Option Game
  | [] => some g
  | op :: rest =>
    match applyOp g op with
    | none => none
    | some g' => runOps g' rest

/-- Run a sequence of directions, requiring every `move` to succeed. -/
def movesOk (g : Game) : List Vector2 → Option Game
  | [] => some g
  | d :: ds =>
    match g.move d with
    | some (true, g') => movesOk g' ds
    | _ => none

/-- Call `undo()` `k` times, collecting the returned booleans. -/
def undoTimes (g : Game) : Nat → List Bool × Game
  | 0 => ([], g)
  | Nat.succ k =>
    let r := g.undo
    let rest := undoTimes r.2 k
    (r.1 :: rest.1, rest.2)

/-! ### Cell-level lemmas about the Python indexing primitives -/

theorem State.is_inbounds_iff (s : State) (p : Vector2) :
    s.is_inbounds p = true ↔
      0 ≤ p.x ∧ p.x < (s.length : Int) ∧ 0 ≤ p.y ∧ p.y < (s.width : Int) := by
  unfold State.is_inbounds
  exact decide_eq_true_iff

theorem pySet2_eq_some (a : List (List α)) (p : Vector2) (v : α)
    (row : List α) (hx : 0 ≤ p.x) (hy : 0 ≤ p.y)
    (hrow : a.get? p.x.toNat = some row) (hylt : p.y.toNat < row.length) :
    pySet2 a p v = some (a.set p.x.toNat (row.set p.y.toNat v)) := by
  have hxlt : p.x.toNat < a.length := by
    by_contra hc
    rw [List.get?_eq_none.2 (by omega)] at hrow
    exact Option.noConfusion hrow
  rw [pySet2_canon a p v hx hy, if_pos hxlt, hrow]
  simp only [Option.some_bind, if_pos hylt]

/-- A 2-D write succeeds exactly when the corresponding read does. -/
theorem pySet2_isSome_iff (a : List (List α)) (p : Vector2) (v : α)
    (hx : 0 ≤ p.x) (hy : 0 ≤ p.y) :
    (pySet2 a p v).isSome = (pyGet2 a p).isSome := by
  rw [pySet2_canon a p v hx hy, pyGet2_canon a p hx hy]
  by_cases hxlt : p.x.toNat < a.length
  · cases hrow : a.get? p.x.toNat with
    | none =>
      rw [List.get?_eq_none] at hrow
      omega
    | some row =>
      rw [if_pos hxlt]
      simp only [Option.some_bind]
      by_cases hylt : p.y.toNat < row.length
      · have h3 : row.get? p.y.toNat = some (row.get ⟨p.y.toNat, hylt⟩) :=
          List.get?_eq_get hylt
        rw [if_pos hylt, h3]
        rfl
      · have h3 : row.get? p.y.toNat = none := List.get?_eq_none.2 (by omega)
        rw [if_neg hylt, h3]
        rfl
  · have h3 : a.get? p.x.toNat = none := List.get?_eq_none.2 (by omega)
    rw [if_neg hxlt, h3]
    rfl

/-- After a successful write, reading the same cell gives the new value. -/
theorem pyGet2_pySet2_self (a a' : List (List α)) (p : Vector2) (v : α)
    (hx : 0 ≤ p.x) (hy : 0 ≤ p.y) (hset : pySet2 a p v = some a') :
    pyGet2 a' p = some v := by
  rw [pySet2_canon a p v hx hy] at hset
  by_cases hxlt : p.x.toNat < a.length
  · rw [if_pos hxlt] at hset
    cases hrow : a.get? p.x.toNat with
    | none => rw [hrow] at hset; exact Option.noConfusion hset
    | some row =>
      rw [hrow] at hset
      simp only [Option.some_bind] at hset
      by_cases hylt : p.y.toNat < row.length
      · rw [if_pos hylt] at hset
        have ha' : a' = a.set p.x.toNat (row.set p.y.toNat v) :=
          (Option.some.injEq _ _ ▸ hset).symm
        rw [pyGet2_canon _ p hx hy, ha']
        rw [List.get?_set_eq_of_lt _ (by simpa using hxlt)]
        simp only [Option.some_bind]
        rw [List.get?_set_eq_of_lt _ (by simpa using hylt)]
      · rw [if_neg hylt] at hset; exact Option.noConfusion hset
  · rw [if_neg hxlt] at hset; exact Option.noConfusion hset

/-- After a successful write, reading any other canonical cell is
unchanged. -/
theorem pyGet2_pySet2_ne (a a' : List (List α)) (p q : Vector2) (v : α)
    (hx : 0 ≤ p.x) (hy : 0 ≤ p.y) (hqx : 0 ≤ q.x) (hqy : 0 ≤ q.y)
    (hne : q ≠ p) (hset : pySet2 a p v = some a') :
    pyGet2 a' q = pyGet2 a q := by
  rw [pySet2_canon a p v hx hy] at hset
  by_cases hxlt : p.x.toNat < a.length
  · rw [if_pos hxlt] at hset
    cases hrow : a.get? p.x.toNat with
    | none => rw [hrow] at hset; exact Option.noConfusion hset
    | some row =>
      rw [hrow] at hset
      simp only [Option.some_bind] at hset
      by_cases hylt : p.y.toNat < row.length
      · rw [if_pos hylt] at hset
        have ha' : a' = a.set p.x.toNat (row.set p.y.toNat v) :=
          (Option.some.injEq _ _ ▸ hset).symm
        rw [pyGet2_canon _ q hqx hqy, pyGet2_canon _ q hqx hqy, ha']
        by_cases hqx2 : q.x.toNat = p.x.toNat
        · have hxx : q.x = p.x := by omega
          have hyy : q.y.toNat ≠ p.y.toNat := by
            intro hc
            exact hne (by
              have : q.y = p.y := by omega
              cases p; cases q
              simp_all)
          rw [hqx2, List.get?_set_eq_of_lt _ (by simpa using hxlt), hrow]
          simp only [Option.some_bind]
          rw [List.get?_set_ne _ _ (fun hc => hyy hc.symm)]
        · rw [List.get?_set_ne _ _ (fun hc => hqx2 hc.symm)]
      · rw [if_neg hylt] at hset; exact Option.noConfusion hset
  · rw [if_neg hxlt] at hset; exact Option.noConfusion hset

/-! ### Counting lemmas -/

/-- Contribution of one tile to `boxCount`. -/
def bval (t : Tile) : Nat := if t = Tile.BOX then 1 else 0

theorem countBox_set (r : List Tile) (j : Nat) (v old : Tile)
    (hget : r.get? j = some old) :
    (r.set j v).countP (fun t => t = Tile.BOX) + bval old =
      r.countP (fun t => t = Tile.BOX) + bval v := by
  induction r generalizing j with
  | nil => exact Option.noConfusion hget
  | cons hd tl ih =>
    cases j with
    | zero =>
      have : hd = old := Option.some.inj hget
      subst this
      simp only [List.set_cons_zero, List.countP_cons]
      unfold bval
      by_cases h1 : hd = Tile.BOX <;> by_cases h2 : v = Tile.BOX <;>
        simp [h1, h2] <;> omega
    | succ j =>
      have hget' : tl.get? j = some old := hget
      have := ih j hget'
      simp only [List.set_cons_succ, List.countP_cons]
      omega

theorem sumNat_set (l : List Nat) (i : Nat) (x y : Nat)
    (hget : l.get? i = some y) :
    (l.set i x).sum + y = l.sum + x := by
  induction l generalizing i with
  | nil => exact Option.noConfusion hget
  | cons hd tl ih =>
    cases i with
    | zero =>
      have : hd = y := Option.some.inj hget
      subst this
      simp [List.sum_cons]
      omega
    | succ i =>
      have hget' : tl.get? i = some y := hget
      have := ih i hget'
      simp only [List.set_cons_succ, List.sum_cons]
      omega

/-- Writing one cell changes `boxCount` by swapping the old value's
contribution for the new one's. -/
theorem boxCount_pySet2 (a a' : List (List Tile)) (p : Vector2)
    (v old : Tile) (hx : 0 ≤ p.x) (hy : 0 ≤ p.y)
    (hget : pyGet2 a p = some old) (hset : pySet2 a p v = some a') :
    boxCount a' + bval old = boxCount a + bval v := by
  rw [pyGet2_canon a p hx hy] at hget
  rw [pySet2_canon a p v hx hy] at hset
  by_cases hxlt : p.x.toNat < a.length
  · rw [if_pos hxlt] at hset
    cases hrow : a.get? p.x.toNat with
    | none => rw [hrow] at hset; exact Option.noConfusion hset
    | some row =>
      rw [hrow] at hset hget
      simp only [Option.some_bind] at hset hget
      by_cases hylt : p.y.toNat < row.length
      · rw [if_pos hylt] at hset
        have ha' : a' = a.set p.x.toNat (row.set p.y.toNat v) :=
          (Option.some.inj hset).symm
        subst ha'
        unfold boxCount
        simp only [List.map_set]
        have hmget : (a.map fun r => r.countP fun t => t = Tile.BOX).get? p.x.toNat =
            some (row.countP fun t => t = Tile.BOX) := by
          rw [List.get?_map, hrow]
          rfl
        have hsum := sumNat_set (a.map fun r => r.countP fun t => t = Tile.BOX)
          p.x.toNat ((row.set p.y.toNat v).countP fun t => t = Tile.BOX)
          (row.countP fun t => t = Tile.BOX) hmget
        have hcp := countBox_set row p.y.toNat v old hget
        omega
      · rw [if_neg hylt] at hset; exact Option.noConfusion hset
  · rw [if_neg hxlt] at hset; exact Option.noConfusion hset

/-! ### Movement-engine lemmas -/

/-- With `CAN_MULTIPUSH = false` the chained-push branch of
`State.move_box` is dead, so one unit of fuel fully determines the
result. -/
theorem move_box_succ_eq (f : Nat) (s : State) (b d : Vector2) :
    State.move_box (f + 1) s b d =
      if ¬ s.is_inbounds (b + d) then some (false, s)
      else
        match pyGet2 s.tiles (b + d) with
        | none => none
        | some t =>
          if t = Tile.WALL then some (false, s)
          else if t = Tile.BOX then some (false, s)
          else
            match pySet2 s.tiles b Tile.EMPTY with
            | none => none
            | some t1 =>
              match pySet2 t1 (b + d) Tile.BOX with
              | none => none
              | some t2 => some (true, { s with tiles := t2 }) := by
  show State.move_box (Nat.succ f) s b d = _
  unfold State.move_box
  simp only [CAN_MULTIPUSH]
  by_cases h1 : s.is_inbounds (b + d)
  · simp only [h1, not_true, if_neg, Bool.true_eq_false, ite_false]
    cases hg : pyGet2 s.tiles (b + d) with
    | none => rfl
    | some t =>
      by_cases h2 : t = Tile.WALL
      · simp [h2]
      · by_cases h3 : t = Tile.BOX
        · simp [h2, h3]
        · simp [h2, h3]
  · simp [h1]

/-- A failed `move_box` returns the state it was given (no mutation). -/
theorem move_box_false (f : Nat) (s s' : State) (b d : Vector2)
    (h : State.move_box f s b d = some (false, s')) : s' = s := by
  cases f with
  | zero => exact Option.noConfusion h
  | succ f =>
    rw [move_box_succ_eq] at h
    by_cases h1 : s.is_inbounds (b + d)
    · rw [if_neg (by simpa using h1)] at h
      cases hg : pyGet2 s.tiles (b + d) with
      | none => rw [hg] at h; exact Option.noConfusion h
      | some t =>
        rw [hg] at h
        dsimp only at h
        by_cases h2 : t = Tile.WALL
        · rw [if_pos h2] at h
          exact (congrArg Prod.snd (Option.some.inj h)).symm
        · rw [if_neg h2] at h
          by_cases h3 : t = Tile.BOX
          · rw [if_pos h3] at h
            exact (congrArg Prod.snd (Option.some.inj h)).symm
          · rw [if_neg h3] at h
            cases hs1 : pySet2 s.tiles b Tile.EMPTY with
            | none => rw [hs1] at h; exact Option.noConfusion h
            | some t1 =>
              rw [hs1] at h
              dsimp only at h
              cases hs2 : pySet2 t1 (b + d) Tile.BOX with
              | none => rw [hs2] at h; exact Option.noConfusion h
              | some t2 =>
                rw [hs2] at h
                dsimp only at h
                exact absurd (congrArg Prod.fst (Option.some.inj h)) (by simp)
    · rw [if_pos (by simpa using h1)] at h
      exact (congrArg Prod.snd (Option.some.inj h)).symm

/-- Structure of a successful `move_box`: the pushed-into cell was inside
the grid and held neither a wall nor a second box, and the mutation is
exactly the two writes of the source. -/
theorem move_box_true (f : Nat) (s s' : State) (b d : Vector2)
    (h : State.move_box f s b d = some (true, s')) :
    s.is_inbounds (b + d) = true ∧
    ∃ u, pyGet2 s.tiles (b + d) = some u ∧ u ≠ Tile.WALL ∧ u ≠ Tile.BOX ∧
    ∃ t1 t2, pySet2 s.tiles b Tile.EMPTY = some t1 ∧
      pySet2 t1 (b + d) Tile.BOX = some t2 ∧ s' = { s with tiles := t2 } := by
  cases f with
  | zero => exact Option.noConfusion h
  | succ f =>
    rw [move_box_succ_eq] at h
    by_cases h1 : s.is_inbounds (b + d)
    · rw [if_neg (by simpa using h1)] at h
      refine ⟨h1, ?_⟩
      cases hg : pyGet2 s.tiles (b + d) with
      | none => rw [hg] at h; exact Option.noConfusion h
      | some t =>
        rw [hg] at h
        dsimp only at h
        by_cases h2 : t = Tile.WALL
        · rw [if_pos h2] at h
          exact absurd (congrArg Prod.fst (Option.some.inj h)) (by simp)
        · rw [if_neg h2] at h
          by_cases h3 : t = Tile.BOX
          · rw [if_pos h3] at h
            exact absurd (congrArg Prod.fst (Option.some.inj h)) (by simp)
          · rw [if_neg h3] at h
            refine ⟨t, rfl, h2, h3, ?_⟩
            cases hs1 : pySet2 s.tiles b Tile.EMPTY with
            | none => rw [hs1] at h; exact Option.noConfusion h
            | some t1 =>
              rw [hs1] at h
              dsimp only at h
              cases hs2 : pySet2 t1 (b + d) Tile.BOX with
              | none => rw [hs2] at h; exact Option.noConfusion h
              | some t2 =>
                rw [hs2] at h
                dsimp only at h
                exact ⟨t1, t2, rfl, hs2, (congrArg Prod.snd (Option.some.inj h)).symm⟩
    · rw [if_pos (by simpa using h1)] at h
      exact absurd (congrArg Prod.fst (Option.some.inj h)) (by simp)

theorem pyIdx_some_lt (n : Nat) (i : Int) (j : Nat) (h : pyIdx n i = some j) :
    j < n := by
  unfold pyIdx at h
  dsimp only at h
  by_cases h0 : i < 0
  · rw [if_pos h0] at h
    split at h
    · rename_i hc
      have := Option.some.inj h
      omega
    · exact Option.noConfusion h
  · rw [if_neg h0] at h
    split at h
    · rename_i hc
      have := Option.some.inj h
      omega
    · exact Option.noConfusion h

/-- A successful 2-D write never changes the outer length or any row
length. -/
theorem pySet2_shape (a a' : List (List α)) (q : Vector2) (v : α)
    (hset : pySet2 a q v = some a') :
    a'.length = a.length ∧
      ∀ k, (a'.get? k).map List.length = (a.get? k).map List.length := by
  unfold pySet2 at hset
  cases hidx : pyIdx a.length q.x with
  | none => rw [hidx] at hset; exact Option.noConfusion hset
  | some i =>
    rw [hidx] at hset
    simp only [Option.some_bind] at hset
    cases hrow : a.get? i with
    | none => rw [hrow] at hset; exact Option.noConfusion hset
    | some row =>
      rw [hrow] at hset
      simp only [Option.some_bind] at hset
      cases hrs : pySet row q.y v with
      | none => rw [hrs] at hset; exact Option.noConfusion hset
      | some row' =>
        rw [hrs] at hset
        have ha' : a' = a.set i row' := (Option.some.inj hset).symm
        have hrowlen : row'.length = row.length := by
          unfold pySet at hrs
          cases hidy : pyIdx row.length q.y with
          | none => rw [hidy] at hrs; exact Option.noConfusion hrs
          | some j =>
            rw [hidy] at hrs
            have : row' = row.set j v := (Option.some.inj hrs).symm
            rw [this, List.length_set]
        subst ha'
        refine ⟨by simp, ?_⟩
        intro k
        by_cases hk : k = i
        · have hilt : i < a.length := pyIdx_some_lt _ _ _ hidx
          subst hk
          rw [List.get?_set_eq_of_lt _ (by simpa using hilt), hrow]
          simp [hrowlen]
        · rw [List.get?_set_ne _ _ (fun hc => hk hc.symm)]

/-- In a rectangular grid every in-bounds cell can be read. -/
theorem rect_pyGet2_isSome (s : State) (hrect : rectTiles s) (q : Vector2)
    (hq : s.is_inbounds q = true) : ∃ v, pyGet2 s.tiles q = some v := by
  obtain ⟨hlen, hrows⟩ := hrect
  rw [State.is_inbounds_iff] at hq
  obtain ⟨hx, hxlt, hy, hylt⟩ := hq
  rw [pyGet2_canon _ q hx hy]
  have hxlt' : q.x.toNat < s.tiles.length := by omega
  have hrow : s.tiles.get? q.x.toNat = some (s.tiles.get ⟨q.x.toNat, hxlt'⟩) :=
    List.get?_eq_get hxlt'
  rw [hrow]
  simp only [Option.some_bind]
  have hmem : s.tiles.get ⟨q.x.toNat, hxlt'⟩ ∈ s.tiles := List.get_mem _ _ _
  have hrl := hrows _ hmem
  have hylt' : q.y.toNat < (s.tiles.get ⟨q.x.toNat, hxlt'⟩).length := by omega
  exact ⟨_, List.get?_eq_get hylt'⟩

/-- Rectangularity is preserved by a successful write. -/
theorem rectTiles_pySet2 (s : State) (t' : List (List Tile)) (q : Vector2)
    (v : Tile) (hrect : rectTiles s) (hset : pySet2 s.tiles q v = some t') :
    rectTiles { s with tiles := t' } := by
  obtain ⟨hlen, hrows⟩ := hrect
  obtain ⟨hlen', hshape⟩ := pySet2_shape _ _ _ _ hset
  constructor
  · simpa [hlen'] using hlen
  · intro r hr
    obtain ⟨k, hk⟩ := List.mem_iff_get?.1 hr
    have := hshape k
    rw [hk] at this
    cases hk0 : s.tiles.get? k with
    | none =>
      rw [hk0] at this
      exact Option.noConfusion this
    | some r0 =>
      rw [hk0] at this
      have hr0 : r0 ∈ s.tiles := List.get?_mem hk0
      have : r.length = r0.length := by simpa using this
      rw [this]
      exact hrows r0 hr0

/-- A failed `move_player` returns the state it was given (no mutation:
every `return False` in the source happens before any write). -/
theorem move_player_false (s s' : State) (p d : Vector2)
    (h : s.move_player p d = some (false, s')) : s' = s := by
  unfold State.move_player at h
  dsimp only at h
  by_cases h1 : s.is_inbounds (p + d)
  · rw [if_neg (by simpa using h1)] at h
    cases hg : pyGet2 s.tiles (p + d) with
    | none => rw [hg] at h; exact Option.noConfusion h
    | some t =>
      rw [hg] at h
      dsimp only at h
      by_cases h2 : t = Tile.WALL
      · rw [if_pos h2] at h
        exact (congrArg Prod.snd (Option.some.inj h)).symm
      · rw [if_neg h2] at h
        by_cases h3 : t = Tile.BOX
        · rw [if_pos h3] at h
          cases hmb : State.move_box (s.length + s.width) s (p + d) d with
          | none => rw [hmb] at h; exact Option.noConfusion h
          | some r =>
            obtain ⟨bb, s1⟩ := r
            rw [hmb] at h
            cases bb with
            | false =>
              dsimp only at h
              have hs1 : s' = s1 := (congrArg Prod.snd (Option.some.inj h)).symm
              rw [hs1]
              exact move_box_false _ _ _ _ _ hmb
            | true =>
              dsimp only at h
              cases hs1 : pySet2 s1.tiles p Tile.EMPTY with
              | none => rw [hs1] at h; exact Option.noConfusion h
              | some t1 =>
                rw [hs1] at h
                dsimp only at h
                cases hs2 : pySet2 t1 (p + d) Tile.PLAYER with
                | none => rw [hs2] at h; exact Option.noConfusion h
                | some t2 =>
                  rw [hs2] at h
                  exact absurd (congrArg Prod.fst (Option.some.inj h)) (by simp)
        · rw [if_neg h3] at h
          dsimp only at h
          cases hs1 : pySet2 s.tiles p Tile.EMPTY with
          | none => rw [hs1] at h; exact Option.noConfusion h
          | some t1 =>
            rw [hs1] at h
            dsimp only at h
            cases hs2 : pySet2 t1 (p + d) Tile.PLAYER with
            | none => rw [hs2] at h; exact Option.noConfusion h
            | some t2 =>
              rw [hs2] at h
              exact absurd (congrArg Prod.fst (Option.some.inj h)) (by simp)
  · rw [if_pos (by simpa using h1)] at h
    exact (congrArg Prod.snd (Option.some.inj h)).symm

/-- Structure of a successful `move_player`: the stepped-onto cell was
inside the grid, not a wall; a box there was first pushed successfully;
then the two player writes happened. -/
theorem move_player_true (s s' : State) (p d : Vector2)
    (h : s.move_player p d = some (true, s')) :
    s.is_inbounds (p + d) = true ∧
    ∃ t, pyGet2 s.tiles (p + d) = some t ∧ t ≠ Tile.WALL ∧
    ∃ s1, ((t = Tile.BOX ∧
              State.move_box (s.length + s.width) s (p + d) d = some (true, s1)) ∨
           (t ≠ Tile.BOX ∧ s1 = s)) ∧
    ∃ t1 t2, pySet2 s1.tiles p Tile.EMPTY = some t1 ∧
      pySet2 t1 (p + d) Tile.PLAYER = some t2 ∧ s' = { s1 with tiles := t2 } := by
  unfold State.move_player at h
  dsimp only at h
  by_cases h1 : s.is_inbounds (p + d)
  · rw [if_neg (by simpa using h1)] at h
    refine ⟨h1, ?_⟩
    cases hg : pyGet2 s.tiles (p + d) with
    | none => rw [hg] at h; exact Option.noConfusion h
    | some t =>
      rw [hg] at h
      dsimp only at h
      by_cases h2 : t = Tile.WALL
      · rw [if_pos h2] at h
        exact absurd (congrArg Prod.fst (Option.some.inj h)) (by simp)
      · rw [if_neg h2] at h
        refine ⟨t, rfl, h2, ?_⟩
        by_cases h3 : t = Tile.BOX
        · rw [if_pos h3] at h
          cases hmb : State.move_box (s.length + s.width) s (p + d) d with
          | none => rw [hmb] at h; exact Option.noConfusion h
          | some r =>
            obtain ⟨bb, s1⟩ := r
            rw [hmb] at h
            cases bb with
            | false =>
              dsimp only at h
              exact absurd (congrArg Prod.fst (Option.some.inj h)) (by simp)
            | true =>
              dsimp only at h
              refine ⟨s1, Or.inl ⟨h3, rfl⟩, ?_⟩
              cases hs1 : pySet2 s1.tiles p Tile.EMPTY with
              | none => rw [hs1] at h; exact Option.noConfusion h
              | some t1 =>
                rw [hs1] at h
                dsimp only at h
                cases hs2 : pySet2 t1 (p + d) Tile.PLAYER with
                | none => rw [hs2] at h; exact Option.noConfusion h
                | some t2 =>
                  rw [hs2] at h
                  exact ⟨t1, t2, rfl, hs2,
                    (congrArg Prod.snd (Option.some.inj h)).symm⟩
        · rw [if_neg h3] at h
          dsimp only at h
          refine ⟨s, Or.inr ⟨h3, rfl⟩, ?_⟩
          cases hs1 : pySet2 s.tiles p Tile.EMPTY with
          | none => rw [hs1] at h; exact Option.noConfusion h
          | some t1 =>
            rw [hs1] at h
            dsimp only at h
            cases hs2 : pySet2 t1 (p + d) Tile.PLAYER with
            | none => rw [hs2] at h; exact Option.noConfusion h
            | some t2 =>
              rw [hs2] at h
              exact ⟨t1, t2, rfl, hs2,
                (congrArg Prod.snd (Option.some.inj h)).symm⟩
  · rw [if_pos (by simpa using h1)] at h
    exact absurd (congrArg Prod.fst (Option.some.inj h)) (by simp)

theorem vec_two_step_ne (p d : Vector2) (h : p ≠ p + d) :
    p ≠ p + d + d ∧ p + d ≠ p + d + d := by
  cases p with
  | mk px py =>
    cases d with
    | mk dx dy =>
      simp only [Vector2.add_def, ne_eq, Vector2.mk.injEq] at h ⊢
      omega

/-- A successful `move_player` starting from a cell that actually holds
the player preserves the number of boxes. -/
theorem move_player_boxCount (s s' : State) (p d : Vector2)
    (hx : 0 ≤ p.x) (hy : 0 ≤ p.y)
    (hp : pyGet2 s.tiles p = some Tile.PLAYER)
    (h : s.move_player p d = some (true, s')) :
    boxCount s'.tiles = boxCount s.tiles := by
  obtain ⟨hinb, t, hgt, hnw, s1, hcase, t1, t2, hset1, hset2, hs'⟩ :=
    move_player_true s s' p d h
  obtain ⟨htx, htxlt, hty, htylt⟩ := (State.is_inbounds_iff s (p + d)).1 hinb
  rcases hcase with ⟨hbox, hmb⟩ | ⟨hnbox, hs1⟩
  · -- the stepped-onto cell held a box that was pushed first
    subst hbox
    obtain ⟨hinb2, u, hgu, hunw, hunb, m1, m2, hb1, hb2, hs1def⟩ :=
      move_box_true _ s s1 (p + d) d hmb
    obtain ⟨ht2x, ht2xlt, ht2y, ht2ylt⟩ :=
      (State.is_inbounds_iff s (p + d + d)).1 hinb2
    have hne1 : p ≠ p + d := by
      intro hc
      rw [← hc] at hgt
      rw [hp] at hgt
      exact Tile.noConfusion (Option.some.inj hgt)
    obtain ⟨hne2, hne3⟩ := vec_two_step_ne p d hne1
    -- push: two writes, box count unchanged overall
    have hcb1 := boxCount_pySet2 s.tiles m1 (p + d) Tile.EMPTY Tile.BOX
      htx hty hgt hb1
    have hgm1u : pyGet2 m1 (p + d + d) = some u := by
      rw [pyGet2_pySet2_ne s.tiles m1 (p + d) (p + d + d) Tile.EMPTY
        htx hty ht2x ht2y (fun hc => hne3 hc.symm) hb1]
      exact hgu
    have hcb2 := boxCount_pySet2 m1 m2 (p + d + d) Tile.BOX u
      ht2x ht2y hgm1u hb2
    have hs1tiles : s1.tiles = m2 := by rw [hs1def]
    -- value at p is still the player after the push
    have hgm1p : pyGet2 m1 p = some Tile.PLAYER := by
      rw [pyGet2_pySet2_ne s.tiles m1 (p + d) p Tile.EMPTY
        htx hty hx hy hne1 hb1]
      exact hp
    have hgm2p : pyGet2 m2 p = some Tile.PLAYER := by
      rw [pyGet2_pySet2_ne m1 m2 (p + d + d) p Tile.BOX
        ht2x ht2y hx hy hne2 hb2]
      exact hgm1p
    rw [hs1tiles] at hset1
    have hc1 := boxCount_pySet2 m2 t1 p Tile.EMPTY Tile.PLAYER
      hx hy hgm2p hset1
    -- value at p + d after push and first player write is EMPTY
    have hgm1pd : pyGet2 m1 (p + d) = some Tile.EMPTY :=
      pyGet2_pySet2_self s.tiles m1 (p + d) Tile.EMPTY htx hty hb1
    have hgm2pd : pyGet2 m2 (p + d) = some Tile.EMPTY := by
      rw [pyGet2_pySet2_ne m1 m2 (p + d + d) (p + d) Tile.BOX
        ht2x ht2y htx hty hne3 hb2]
      exact hgm1pd
    have hgt1pd : pyGet2 t1 (p + d) = some Tile.EMPTY := by
      rw [pyGet2_pySet2_ne m2 t1 p (p + d) Tile.EMPTY
        hx hy htx hty (fun hc => hne1 hc.symm) hset1]
      exact hgm2pd
    have hc2 := boxCount_pySet2 t1 t2 (p + d) Tile.PLAYER Tile.EMPTY
      htx hty hgt1pd hset2
    have hbu : bval u = 0 := by simp [bval, hunb]
    rw [hbu] at hcb2
    rw [hs']
    dsimp only
    simp only [bval] at hcb1 hcb2 hc1 hc2
    simp at hcb1 hcb2 hc1 hc2
    omega
  · -- the stepped-onto cell held no box: two player writes only
    rw [hs1] at hset1 hs'
    have hc1 := boxCount_pySet2 s.tiles t1 p Tile.EMPTY Tile.PLAYER
      hx hy hp hset1
    by_cases hpd : p = p + d
    · have hge : pyGet2 t1 (p + d) = some Tile.EMPTY := by
        rw [← hpd]
        exact pyGet2_pySet2_self s.tiles t1 p Tile.EMPTY hx hy hset1
      have hc2 := boxCount_pySet2 t1 t2 (p + d) Tile.PLAYER Tile.EMPTY
        htx hty hge hset2
      rw [hs']
      dsimp only
      simp only [bval] at hc1 hc2
      simp at hc1 hc2
      omega
    · have hge : pyGet2 t1 (p + d) = some t := by
        rw [pyGet2_pySet2_ne s.tiles t1 p (p + d) Tile.EMPTY
          hx hy htx hty (fun hc => hpd hc.symm) hset1]
        exact hgt
      have hc2 := boxCount_pySet2 t1 t2 (p + d) Tile.PLAYER t
        htx hty hge hset2
      have hbt : bval t = 0 := by simp [bval, hnbox]
      rw [hbt] at hc2
      rw [hs']
      dsimp only
      simp only [bval] at hc1 hc2
      simp at hc1 hc2
      omega

theorem inb_nonneg (s : State) (q : Vector2) (h : s.is_inbounds q = true) :
    0 ≤ q.x ∧ 0 ≤ q.y := by
  rw [State.is_inbounds_iff] at h
  exact ⟨h.1, h.2.2.1⟩

/-- On a rectangular grid, a write at an in-bounds position succeeds. -/
theorem rect_pySet2_isSome (s : State) (hrect : rectTiles s) (q : Vector2)
    (v : Tile) (hq : s.is_inbounds q = true) :
    ∃ t', pySet2 s.tiles q v = some t' := by
  obtain ⟨hqx, hqy⟩ := inb_nonneg s q hq
  obtain ⟨u, hu⟩ := rect_pyGet2_isSome s hrect q hq
  have := pySet2_isSome_iff s.tiles q v hqx hqy
  rw [hu] at this
  exact Option.isSome_iff_exists.1 (by rw [this]; rfl)

/-- With one unit of fuel and a rectangular grid, `move_box` called at an
in-bounds cell cannot raise. -/
theorem move_box_ne_none (f : Nat) (s : State) (b d : Vector2)
    (hrect : rectTiles s) (hbin : s.is_inbounds b = true) :
    State.move_box (f + 1) s b d ≠ none := by
  rw [move_box_succ_eq]
  by_cases h1 : s.is_inbounds (b + d)
  · rw [if_neg (by simpa using h1)]
    obtain ⟨t, hgt⟩ := rect_pyGet2_isSome s hrect _ h1
    rw [hgt]
    dsimp only
    by_cases h2 : t = Tile.WALL
    · simp [h2]
    · rw [if_neg h2]
      by_cases h3 : t = Tile.BOX
      · simp [h3]
      · rw [if_neg h3]
        obtain ⟨t1, ht1⟩ := rect_pySet2_isSome s hrect b Tile.EMPTY hbin
        rw [ht1]
        dsimp only
        have hrect1 : rectTiles { s with tiles := t1 } :=
          rectTiles_pySet2 s t1 b Tile.EMPTY hrect ht1
        have h1' : ({ s with tiles := t1 } : State).is_inbounds (b + d) = true := h1
        obtain ⟨t2, ht2⟩ :=
          rect_pySet2_isSome { s with tiles := t1 } hrect1 (b + d) Tile.BOX h1'
        rw [show ({ s with tiles := t1 } : State).tiles = t1 from rfl] at ht2
        rw [ht2]
        simp
  · rw [if_pos (by simpa using h1)]
    simp

/-- Rectangularity survives a successful `move_box`. -/
theorem rectTiles_move_box (f : Nat) (s s1 : State) (b d : Vector2)
    (hrect : rectTiles s)
    (h : State.move_box f s b d = some (true, s1)) : rectTiles s1 := by
  obtain ⟨_, u, _, _, _, m1, m2, hb1, hb2, hs1⟩ := move_box_true f s s1 b d h
  have h1 : rectTiles { s with tiles := m1 } := rectTiles_pySet2 s m1 b Tile.EMPTY hrect hb1
  have h2 : rectTiles { s with tiles := m2 } :=
    rectTiles_pySet2 { s with tiles := m1 } m2 (b + d) Tile.BOX h1 hb2
  rw [hs1]
  exact h2

/-- On a rectangular grid, `move_player` at an in-bounds cell cannot
raise an exception: every outcome is an ordinary boolean. -/
theorem move_player_ne_none (s : State) (p d : Vector2)
    (hrect : rectTiles s) (hpin : s.is_inbounds p = true) :
    s.move_player p d ≠ none := by
  unfold State.move_player
  dsimp only
  by_cases h1 : s.is_inbounds (p + d)
  · rw [if_neg (by simpa using h1)]
    obtain ⟨t, hgt⟩ := rect_pyGet2_isSome s hrect _ h1
    rw [hgt]
    dsimp only
    by_cases h2 : t = Tile.WALL
    · simp [h2]
    · rw [if_neg h2]
      have hfinish : ∀ s1 : State, rectTiles s1 →
          s1.length = s.length → s1.width = s.width →
          (match pySet2 s1.tiles p Tile.EMPTY with
            | none => (none : Option (Bool × State))
            | some t1 =>
              match pySet2 t1 (p + d) Tile.PLAYER with
              | none => none
              | some t2 => some (true, { s1 with tiles := t2 })) ≠ none := by
        intro s1 hrect1 hlen hwid
        have hpin1 : s1.is_inbounds p = true := by
          rw [State.is_inbounds_iff] at hpin ⊢
          rw [hlen, hwid]
          exact hpin
        obtain ⟨t1, ht1⟩ := rect_pySet2_isSome s1 hrect1 p Tile.EMPTY hpin1
        rw [ht1]
        dsimp only
        have hrect2 : rectTiles { s1 with tiles := t1 } :=
          rectTiles_pySet2 s1 t1 p Tile.EMPTY hrect1 ht1
        have h1' : ({ s1 with tiles := t1 } : State).is_inbounds (p + d) = true := by
          rw [State.is_inbounds_iff] at h1 ⊢
          dsimp only
          rw [hlen, hwid]
          exact h1
        obtain ⟨t2, ht2⟩ :=
          rect_pySet2_isSome { s1 with tiles := t1 } hrect2 (p + d) Tile.PLAYER h1'
        rw [show ({ s1 with tiles := t1 } : State).tiles = t1 from rfl] at ht2
        rw [ht2]
        simp
      by_cases h3 : t = Tile.BOX
      · rw [if_pos h3]
        have hL : 1 ≤ s.length := by
          rw [State.is_inbounds_iff] at hpin
          omega
        obtain ⟨f, hf⟩ : ∃ f, s.length + s.width = f + 1 :=
          ⟨s.length + s.width - 1, by omega⟩
        rw [hf]
        cases hmb : State.move_box (f + 1) s (p + d) d with
        | none => exact absurd hmb (move_box_ne_none f s (p + d) d hrect h1)
        | some r =>
          obtain ⟨bb, s1⟩ := r
          cases bb with
          | false => simp
          | true =>
            dsimp only
            have hrect1 : rectTiles s1 := rectTiles_move_box _ _ _ _ _ hrect hmb
            obtain ⟨_, u, _, _, _, m1, m2, hb1, hb2, hs1⟩ :=
              move_box_true _ s s1 (p + d) d hmb
            have hlen : s1.length = s.length := by rw [hs1]
            have hwid : s1.width = s.width := by rw [hs1]
            exact hfinish s1 hrect1 hlen hwid
      · rw [if_neg h3]
        dsimp only
        exact hfinish s hrect rfl rfl
  · rw [if_pos (by simpa using h1)]
    simp

/-! ### Position-scan lemmas -/

theorem positionsList_mem (s : State) (p : Vector2) :
    p ∈ s.positionsList ↔
      ∃ i j : Nat, i < s.length ∧ j < s.width ∧ p = ⟨(i : Int), (j : Int)⟩ := by
  unfold State.positionsList
  rw [List.mem_flatMap]
  constructor
  · rintro ⟨i, hi, hp⟩
    rw [List.mem_range] at hi
    obtain ⟨j, hj, hpe⟩ := List.mem_map.1 hp
    rw [List.mem_range] at hj
    exact ⟨i, j, hi, hj, hpe.symm⟩
  · rintro ⟨i, j, hi, hj, hpe⟩
    exact ⟨i, List.mem_range.2 hi, List.mem_map.2 ⟨j, List.mem_range.2 hj, hpe.symm⟩⟩

theorem positionsList_inbounds (s : State) (p : Vector2)
    (h : p ∈ s.positionsList) : s.is_inbounds p = true := by
  obtain ⟨i, j, hi, hj, hp⟩ := (positionsList_mem s p).1 h
  subst hp
  rw [State.is_inbounds_iff]
  refine ⟨Int.ofNat_nonneg i, ?_, Int.ofNat_nonneg j, ?_⟩
  · show (i : Int) < (s.length : Int)
    exact_mod_cast hi
  · show (j : Int) < (s.width : Int)
    exact_mod_cast hj

/-- A successful scan preserves the box count (each failed attempt left
the copy untouched; the one success preserves it). -/
theorem moveScan_boxCount (d : Vector2) (ps : List Vector2) (s s' : State)
    (hcanon : ∀ p ∈ ps, 0 ≤ p.x ∧ 0 ≤ p.y)
    (h : moveScan d s ps = some (some s')) :
    boxCount s'.tiles = boxCount s.tiles := by
  induction ps generalizing s with
  | nil => exact Option.noConfusion (Option.some.inj h)
  | cons p rest ih =>
    unfold moveScan at h
    cases hg : pyGet2 s.tiles p with
    | none => rw [hg] at h; exact Option.noConfusion h
    | some t =>
      rw [hg] at h
      dsimp only at h
      by_cases ht : t = Tile.PLAYER
      · rw [if_pos ht] at h
        cases hmp : s.move_player p d with
        | none => rw [hmp] at h; exact Option.noConfusion h
        | some r =>
          obtain ⟨bb, snext⟩ := r
          rw [hmp] at h
          cases bb with
          | true =>
            dsimp only at h
            have hs' : s' = snext := (Option.some.inj (Option.some.inj h)).symm
            subst hs'
            subst ht
            exact move_player_boxCount s s' p d (hcanon p (by simp)).1
              (hcanon p (by simp)).2 hg hmp
          | false =>
            dsimp only at h
            have hsame : snext = s := move_player_false s snext p d hmp
            subst hsame
            exact ih snext (fun q hq => hcanon q (by simp [hq])) h
      · rw [if_neg ht] at h
        exact ih s (fun q hq => hcanon q (by simp [hq])) h

/-- On a rectangular grid the scan never raises. -/
theorem moveScan_ne_none (d : Vector2) (ps : List Vector2) (s : State)
    (hrect : rectTiles s)
    (hin : ∀ p ∈ ps, s.is_inbounds p = true) :
    moveScan d s ps ≠ none := by
  induction ps generalizing s with
  | nil => simp [moveScan]
  | cons p rest ih =>
    unfold moveScan
    obtain ⟨t, hgt⟩ := rect_pyGet2_isSome s hrect p (hin p (by simp))
    rw [hgt]
    dsimp only
    by_cases ht : t = Tile.PLAYER
    · rw [if_pos ht]
      cases hmp : s.move_player p d with
      | none =>
        exact absurd hmp (move_player_ne_none s p d hrect (hin p (by simp)))
      | some r =>
        obtain ⟨bb, snext⟩ := r
        cases bb with
        | true => simp
        | false =>
          dsimp only
          have hsame : snext = s := move_player_false s snext p d hmp
          subst hsame
          exact ih snext hrect (fun q hq => hin q (by simp [hq]))
    · rw [if_neg ht]
      exact ih s hrect (fun q hq => hin q (by simp [hq]))

/-- If no readable cell holds the player, the scan cannot succeed. -/
theorem moveScan_no_player (d : Vector2) (ps : List Vector2) (s : State)
    (hnp : ∀ (p : Vector2), pyGet2 s.tiles p ≠ some Tile.PLAYER) :
    ∀ s', moveScan d s ps ≠ some (some s') := by
  induction ps with
  | nil =>
    intro s' h
    exact Option.noConfusion (Option.some.inj h)
  | cons p rest ih =>
    intro s' h
    unfold moveScan at h
    cases hg : pyGet2 s.tiles p with
    | none => rw [hg] at h; exact Option.noConfusion h
    | some t =>
      rw [hg] at h
      dsimp only at h
      by_cases ht : t = Tile.PLAYER
      · subst ht
        exact hnp p hg
      · rw [if_neg ht] at h
        exact ih s' h

/-! ### Controller-level lemmas -/

theorem game_move_false (g g' : Game) (d : Vector2)
    (h : g.move d = some (false, g')) : g' = g := by
  unfold Game.move at h
  cases hl : g.state.getLast? with
  | none => rw [hl] at h; exact Option.noConfusion h
  | some s =>
    rw [hl] at h
    dsimp only at h
    cases hsc : moveScan d s s.positionsList with
    | none => rw [hsc] at h; exact Option.noConfusion h
    | some r =>
      rw [hsc] at h
      cases r with
      | none =>
        dsimp only at h
        exact (congrArg Prod.snd (Option.some.inj h)).symm
      | some s' =>
        dsimp only at h
        exact absurd (congrArg Prod.fst (Option.some.inj h)) (by simp)

theorem game_move_true (g g' : Game) (d : Vector2)
    (h : g.move d = some (true, g')) :
    ∃ s s', g.state.getLast? = some s ∧
      moveScan d s s.positionsList = some (some s') ∧
      g'.state = g.state ++ [s'] := by
  unfold Game.move at h
  cases hl : g.state.getLast? with
  | none => rw [hl] at h; exact Option.noConfusion h
  | some s =>
    rw [hl] at h
    dsimp only at h
    cases hsc : moveScan d s s.positionsList with
    | none => rw [hsc] at h; exact Option.noConfusion h
    | some r =>
      rw [hsc] at h
      cases r with
      | none =>
        dsimp only at h
        exact absurd (congrArg Prod.fst (Option.some.inj h)) (by simp)
      | some s' =>
        dsimp only at h
        refine ⟨s, s', rfl, hsc, ?_⟩
        have h2 : ({ state := g.state ++ [s'] } : Game) = g' :=
          congrArg Prod.snd (Option.some.inj h)
        rw [← h2]

theorem pyGet2_mem (a : List (List α)) (p : Vector2) (v : α)
    (h : pyGet2 a p = some v) : ∃ row ∈ a, v ∈ row := by
  unfold pyGet2 pyGet at h
  cases hidx : pyIdx a.length p.x with
  | none => rw [hidx] at h; exact Option.noConfusion h
  | some i =>
    rw [hidx] at h
    simp only [Option.some_bind] at h
    cases hrow : a.get? i with
    | none => rw [hrow] at h; exact Option.noConfusion h
    | some row =>
      rw [hrow] at h
      simp only [Option.some_bind] at h
      cases hidy : pyIdx row.length p.y with
      | none => rw [hidy] at h; exact Option.noConfusion h
      | some j =>
        rw [hidy] at h
        simp only [Option.some_bind] at h
        exact ⟨row, List.get?_mem hrow, List.get?_mem h⟩

theorem count_zero_no_cell (a : List (List Tile)) (pr : Tile → Bool)
    (h : (a.map fun r => r.countP pr).sum = 0)
    (p : Vector2) (v : Tile) (hget : pyGet2 a p = some v) : pr v = false := by
  obtain ⟨row, hrowmem, hvmem⟩ := pyGet2_mem a p v hget
  have hz : row.countP pr = 0 := by
    exact List.sum_eq_zero_iff.1 h (row.countP pr)
      (List.mem_map.2 ⟨row, hrowmem, rfl⟩)
  have := List.countP_eq_zero.1 hz v hvmem
  simpa using this

/-- Invariant: the history is non-empty and every snapshot carries the
same number of boxes. -/
def histInv (g : Game) (B : Nat) : Prop :=
  g.state ≠ [] ∧ ∀ s ∈ g.state, boxCount s.tiles = B

theorem applyOp_histInv (g g' : Game) (op : Op) (B : Nat)
    (hinv : histInv g B) (h : applyOp g op = some g') : histInv g' B := by
  obtain ⟨hne, hall⟩ := hinv
  cases op with
  | move d =>
    unfold applyOp at h
    dsimp only at h
    cases hm : g.move d with
    | none => rw [hm] at h; exact Option.noConfusion h
    | some r =>
      rw [hm] at h
      obtain ⟨b, g2⟩ := r
      have hg' : g2 = g' := Option.some.inj h
      subst hg'
      cases b with
      | false =>
        have := game_move_false g g2 d hm
        subst this
        exact ⟨hne, hall⟩
      | true =>
        obtain ⟨s, s', hl, hsc, happ⟩ := game_move_true g g2 d hm
        have hcanon : ∀ p ∈ s.positionsList, 0 ≤ p.x ∧ 0 ≤ p.y := fun p hp =>
          inb_nonneg s p (positionsList_inbounds s p hp)
        have hcount : boxCount s'.tiles = boxCount s.tiles :=
          moveScan_boxCount d s.positionsList s s' hcanon hsc
        have hsB : boxCount s.tiles = B :=
          hall s (List.mem_of_getLast?_eq_some hl)
        constructor
        · rw [happ]
          simp
        · intro u hu
          rw [happ] at hu
          rcases List.mem_append.1 hu with hu1 | hu2
          · exact hall u hu1
          · have : u = s' := by simpa using hu2
            rw [this, hcount, hsB]
  | undo =>
    unfold applyOp Game.undo at h
    dsimp only at h
    by_cases hlen : 1 < g.state.length
    · rw [if_pos hlen] at h
      have hg' : g' = ⟨g.state.dropLast⟩ := (Option.some.inj h).symm
      subst hg'
      constructor
      · intro hc
        have := congrArg List.length hc
        simp at this
        omega
      · intro u hu
        exact hall u (List.dropLast_subset g.state hu)
    · rw [if_neg hlen] at h
      have hg' : g' = g := (Option.some.inj h).symm
      subst hg'
      exact ⟨hne, hall⟩

theorem runOps_histInv (ops : List Op) (g g' : Game) (B : Nat)
    (hinv : histInv g B) (h : runOps g ops = some g') : histInv g' B := by
  induction ops generalizing g with
  | nil =>
    have : g = g' := Option.some.inj h
    subst this
    exact hinv
  | cons op rest ih =>
    unfold runOps at h
    cases hap : applyOp g op with
    | none => rw [hap] at h; exact Option.noConfusion h
    | some g1 =>
      rw [hap] at h
      exact ih g1 (applyOp_histInv g g1 op B hinv hap) h

/-- `k` successful moves append exactly `k` snapshots. -/
theorem movesOk_state (ds : List Vector2) (g g' : Game)
    (h : movesOk g ds = some g') :
    ∃ tail : List State, g'.state = g.state ++ tail ∧ tail.length = ds.length := by
  induction ds generalizing g with
  | nil =>
    have : g = g' := Option.some.inj h
    subst this
    exact ⟨[], by simp, rfl⟩
  | cons d rest ih =>
    unfold movesOk at h
    cases hm : g.move d with
    | none => rw [hm] at h; exact Option.noConfusion h
    | some r =>
      rw [hm] at h
      obtain ⟨b, g1⟩ := r
      cases b with
      | false => dsimp only at h; exact Option.noConfusion h
      | true =>
        dsimp only at h
        obtain ⟨s, s', hl, hsc, happ⟩ := game_move_true g g1 d hm
        obtain ⟨tail, htail, hlen⟩ := ih g1 h
        refine ⟨[s'] ++ tail, ?_, by simp [hlen]⟩
        rw [htail, happ, List.append_assoc]

theorem undoTimes_replicate (k : Nat) (A : List State) (hA : A ≠ []) :
    ∀ tail : List State, tail.length = k →
      undoTimes ⟨A ++ tail⟩ k = (List.replicate k true, (⟨A⟩ : Game)) := by
  induction k with
  | zero =>
    intro tail hlen
    have : tail = [] := List.length_eq_zero.1 hlen
    subst this
    simp [undoTimes]
  | succ k ih =>
    intro tail hlen
    have htne : tail ≠ [] := by
      intro hc
      subst hc
      simp at hlen
    have hlen2 : 1 < (A ++ tail).length := by
      have h1 : 0 < A.length := List.length_pos.2 hA
      simp [List.length_append]
      omega
    have hundo : (⟨A ++ tail⟩ : Game).undo = (true, ⟨(A ++ tail).dropLast⟩) := by
      unfold Game.undo
      rw [if_pos hlen2]
    have hdrop : (A ++ tail).dropLast = A ++ tail.dropLast :=
      List.dropLast_append_of_ne_nil A htne
    have hlen3 : tail.dropLast.length = k := by
      simp [hlen]
    unfold undoTimes
    rw [hundo]
    dsimp only
    rw [hdrop, ih tail.dropLast hlen3]
    simp [List.replicate_succ]

/-! ### Win-condition lemmas -/

theorem rectBG_pyGet2_isSome (s : State) (hrect : rectBackground s)
    (q : Vector2) (hq : s.is_inbounds q = true) :
    ∃ v, pyGet2 s.background q = some v := by
  obtain ⟨hlen, hrows⟩ := hrect
  rw [State.is_inbounds_iff] at hq
  obtain ⟨hx, hxlt, hy, hylt⟩ := hq
  rw [pyGet2_canon _ q hx hy]
  have hxlt' : q.x.toNat < s.background.length := by omega
  have hrow : s.background.get? q.x.toNat =
      some (s.background.get ⟨q.x.toNat, hxlt'⟩) := List.get?_eq_get hxlt'
  rw [hrow]
  simp only [Option.some_bind]
  have hmem : s.background.get ⟨q.x.toNat, hxlt'⟩ ∈ s.background :=
    List.get_mem _ _ _
  have hrl := hrows _ hmem
  have hylt' : q.y.toNat < (s.background.get ⟨q.x.toNat, hxlt'⟩).length := by
    omega
  exact ⟨_, List.get?_eq_get hylt'⟩

theorem winAux_spec (s : State) (ps : List Vector2)
    (hrt : rectTiles s) (hrb : rectBackground s)
    (hin : ∀ p ∈ ps, s.is_inbounds p = true) :
    ∃ b, winAux s ps = some b ∧
      (b = true ↔ ∀ p ∈ ps, pyGet2 s.tiles p = some Tile.BOX →
        pyGet2 s.background p = some BackgroundTile.TARGET) := by
  induction ps with
  | nil => exact ⟨true, rfl, by simp⟩
  | cons p rest ih =>
    obtain ⟨b, hb, hiff⟩ := ih (fun q hq => hin q (by simp [hq]))
    obtain ⟨t, hgt⟩ := rect_pyGet2_isSome s hrt p (hin p (by simp))
    by_cases hbx : t = Tile.BOX
    · subst hbx
      obtain ⟨bb, hgb⟩ := rectBG_pyGet2_isSome s hrb p (hin p (by simp))
      by_cases htb : bb = BackgroundTile.TARGET
      · refine ⟨b, ?_, ?_⟩
        · unfold winAux
          rw [hgt]
          dsimp only
          rw [if_pos rfl, hgb]
          dsimp only
          rw [if_neg (by simp [htb])]
          exact hb
        · rw [hiff]
          constructor
          · intro hrest q hq hqb
            rcases List.mem_cons.1 hq with hq1 | hq2
            · subst hq1
              rw [hgb, htb]
            · exact hrest q hq2 hqb
          · intro hall q hq hqb
            exact hall q (by simp [hq]) hqb
      · refine ⟨false, ?_, ?_⟩
        · unfold winAux
          rw [hgt]
          dsimp only
          rw [if_pos rfl, hgb]
          dsimp only
          rw [if_pos (by simp [htb])]
        · simp only [Bool.false_eq_true, false_iff]
          intro hall
          have := hall p (by simp) hgt
          rw [hgb] at this
          exact htb (Option.some.inj this)
    · refine ⟨b, ?_, ?_⟩
      · unfold winAux
        rw [hgt]
        dsimp only
        rw [if_neg hbx]
        exact hb
      · rw [hiff]
        constructor
        · intro hrest q hq hqb
          rcases List.mem_cons.1 hq with hq1 | hq2
          · subst hq1
            rw [hgt] at hqb
            exact absurd (Option.some.inj hqb) hbx
          · exact hrest q hq2 hqb
        · intro hall q hq hqb
          exact hall q (by simp [hq]) hqb

theorem positionsList_mem_iff (s : State) (p : Vector2) :
    p ∈ s.positionsList ↔ s.is_inbounds p = true := by
  constructor
  · exact positionsList_inbounds s p
  · intro h
    rw [State.is_inbounds_iff] at h
    cases p with
    | mk px py =>
      dsimp only at h
      obtain ⟨hx, hxlt, hy, hylt⟩ := h
      rw [positionsList_mem]
      refine ⟨px.toNat, py.toNat, by omega, by omega, ?_⟩
      simp only [Vector2.mk.injEq]
      constructor <;> omega

/-! ### Parser lemmas -/

theorem mapOpt_some_all (f : α → Option β) (l : List α) (l' : List β)
    (h : mapOpt f l = some l') : ∀ a ∈ l, (f a).isSome := by
  induction l generalizing l' with
  | nil => intro a ha; exact absurd ha (List.not_mem_nil a)
  | cons x xs ih =>
    intro a ha
    unfold mapOpt at h
    cases hfx : f x with
    | none => rw [hfx] at h; exact Option.noConfusion h
    | some b =>
      rw [hfx] at h
      dsimp only at h
      cases hrest : mapOpt f xs with
      | none => rw [hrest] at h; exact Option.noConfusion h
      | some bs =>
        rcases List.mem_cons.1 ha with h1 | h2
        · subst h1
          rw [hfx]
          rfl
        · exact ih bs hrest a h2

theorem mapOpt_length (f : α → Option β) (l : List α) (l' : List β)
    (h : mapOpt f l = some l') : l'.length = l.length := by
  induction l generalizing l' with
  | nil =>
    have : l' = [] := (Option.some.inj h).symm
    subst this
    rfl
  | cons x xs ih =>
    unfold mapOpt at h
    cases hfx : f x with
    | none => rw [hfx] at h; exact Option.noConfusion h
    | some b =>
      rw [hfx] at h
      dsimp only at h
      cases hrest : mapOpt f xs with
      | none => rw [hrest] at h; exact Option.noConfusion h
      | some bs =>
        rw [hrest] at h
        have : b :: bs = l' := Option.some.inj h
        subst this
        simp [ih bs hrest]

/-- Full characterisation of a successful parse: a first line with exactly
two integer tokens, both layer slices fully parsed, and a non-empty tile
list; the `State` fields are computed from the parsed rows only. -/
theorem parse_level_some (text : List Char) (s : State)
    (h : parse_level text = some s) :
    ∃ l0 rest n m, splitlines text = l0 :: rest ∧
      (∃ t1 t2, splitWS l0 = [t1, t2] ∧ pyInt t1 = some n ∧ pyInt t2 = some m) ∧
      ∃ tiles background r0 tr,
        mapOpt (fun ln => mapOpt parse_tile ln)
          (pySlice (splitlines text) 1 (n + 1)) = some tiles ∧
        mapOpt (fun ln => mapOpt parse_background_tile ln)
          (pySlice (splitlines text) (n + 1) (2 * n + 1)) = some background ∧
        tiles = r0 :: tr ∧
        s = ⟨tiles, background, tiles.length, r0.length⟩ := by
  unfold parse_level at h
  cases hls : splitlines text with
  | nil => rw [hls] at h; exact Option.noConfusion h
  | cons l0 rest =>
    rw [hls] at h
    dsimp only at h
    cases hws : splitWS l0 with
    | nil => rw [hws] at h; exact Option.noConfusion h
    | cons t1 ws1 =>
      cases ws1 with
      | nil => rw [hws] at h; exact Option.noConfusion h
      | cons t2 ws2 =>
        cases ws2 with
        | cons t3 ws3 => rw [hws] at h; exact Option.noConfusion h
        | nil =>
          rw [hws] at h
          dsimp only at h
          cases hn : pyInt t1 with
          | none => rw [hn] at h; exact Option.noConfusion h
          | some n =>
            rw [hn] at h
            cases hm : pyInt t2 with
            | none => rw [hm] at h; exact Option.noConfusion h
            | some m =>
              rw [hm] at h
              dsimp only at h
              cases htl : mapOpt (fun ln => mapOpt parse_tile ln)
                  (pySlice (l0 :: rest) 1 (n + 1)) with
              | none => rw [htl] at h; exact Option.noConfusion h
              | some tiles =>
                rw [htl] at h
                cases hbg : mapOpt (fun ln => mapOpt parse_background_tile ln)
                    (pySlice (l0 :: rest) (n + 1) (2 * n + 1)) with
                | none => rw [hbg] at h; exact Option.noConfusion h
                | some background =>
                  rw [hbg] at h
                  dsimp only at h
                  cases htiles : tiles with
                  | nil =>
                    rw [htiles] at h
                    exact Option.noConfusion h
                  | cons r0 tr =>
                    rw [htiles] at h
                    unfold mkState at h
                    dsimp only at h
                    refine ⟨l0, rest, n, m, rfl, ⟨t1, t2, hws, hn, hm⟩,
                      tiles, background, r0, tr, htl, hbg, htiles, ?_⟩
                    rw [htiles]
                    exact (Option.some.inj h).symm

/-! ### Claim theorems -/

/-- Helper for C7: with the default `CAN_MULTIPUSH = false`, pushing a box
toward a cell that already holds a box always fails without mutation. -/
theorem move_box_blocked (f : Nat) (s : State) (b d : Vector2)
    (hbox : pyGet2 s.tiles (b + d) = some Tile.BOX) :
    State.move_box (f + 1) s b d = some (false, s) := by
  rw [move_box_succ_eq]
  by_cases h1 : s.is_inbounds (b + d)
  · rw [if_neg (by simpa using h1), hbox]
    dsimp only
    rw [if_neg (by decide), if_pos rfl]
  · rw [if_pos (by simpa using h1)]

/-- C1: whenever `move(d)` returns `False`, the history list — and hence
`current()` — is unchanged in value. -/
theorem C1_move_false_no_mutation (g g' : Game) (d : Vector2)
    (h : g.move d = some (false, g')) :
    g' = g ∧ g'.current = g.current := by
  have heq := game_move_false g g' d h
  exact ⟨heq, by rw [heq]⟩

def stC1 : State := ⟨[[Tile.PLAYER]], [[BackgroundTile.EMPTY]], 1, 1⟩

theorem C1_witness :
    (Game.init stC1).move RIGHT = some (false, Game.init stC1) ∧
      (Game.init stC1 = Game.init stC1 ∧
        (Game.init stC1).current = (Game.init stC1).current) :=
  ⟨by decide, C1_move_false_no_mutation (Game.init stC1) (Game.init stC1) RIGHT
    (by decide)⟩

/-- C2: starting from a parsed level, any sequence of `move`/`undo`
commands that completes without an exception leaves the number of `Box`
tiles in `current()` equal to that of the initial grid. -/
theorem C2_box_count_invariant (text : List Char) (s0 : State) (ops : List Op)
    (g : Game) (c : State)
    (hparse : parse_level text = some s0)
    (hrun : runOps (Game.init s0) ops = some g)
    (hcur : g.current = some c) :
    boxCount c.tiles = boxCount s0.tiles := by
  have hinv : histInv (Game.init s0) (boxCount s0.tiles) := by
    constructor
    · simp [Game.init]
    · intro u hu
      have : u = s0 := by simpa [Game.init] using hu
      rw [this]
  have hinv' := runOps_histInv ops (Game.init s0) g (boxCount s0.tiles) hinv hrun
  unfold Game.current at hcur
  exact hinv'.2 c (List.mem_of_getLast?_eq_some hcur)

def txtC2 : List Char := "1 3\npx.\n..o".toList

def stC2 : State :=
  ⟨[[Tile.PLAYER, Tile.BOX, Tile.EMPTY]],
   [[BackgroundTile.EMPTY, BackgroundTile.EMPTY, BackgroundTile.TARGET]], 1, 3⟩

theorem C2_witness :
    parse_level txtC2 = some stC2 ∧
    runOps (Game.init stC2) [Op.move RIGHT, Op.undo] = some (Game.init stC2) ∧
    (Game.init stC2).current = some stC2 ∧
    boxCount stC2.tiles = boxCount stC2.tiles :=
  ⟨by decide, by decide, by decide,
    C2_box_count_invariant txtC2 stC2 [Op.move RIGHT, Op.undo]
      (Game.init stC2) stC2 (by decide) (by decide) (by decide)⟩

/-- C3: on a well-formed (rectangular, matching-dimension) grid, `win()`
returns true exactly when every position holding a `Box` has a `Target`
marking; covering every target is not required, and a grid with no boxes
is won regardless of uncovered targets. -/
theorem C3_win_iff (s : State) (hrt : rectTiles s) (hrb : rectBackground s) :
    (s.win = some true ↔ ∀ p : Vector2, s.is_inbounds p = true →
      pyGet2 s.tiles p = some Tile.BOX →
      pyGet2 s.background p = some BackgroundTile.TARGET) ∧
    (boxCount s.tiles = 0 → s.win = some true) := by
  have hin : ∀ p ∈ s.positionsList, s.is_inbounds p = true :=
    fun p hp => positionsList_inbounds s p hp
  obtain ⟨b, hb, hiff⟩ := winAux_spec s s.positionsList hrt hrb hin
  have hmain : s.win = some true ↔ ∀ p : Vector2, s.is_inbounds p = true →
      pyGet2 s.tiles p = some Tile.BOX →
      pyGet2 s.background p = some BackgroundTile.TARGET := by
    constructor
    · intro hw p hpin hpb
      unfold State.win at hw
      rw [hb] at hw
      have hbt : b = true := Option.some.inj hw
      exact hiff.1 hbt p ((positionsList_mem_iff s p).2 hpin) hpb
    · intro hall
      unfold State.win
      rw [hb]
      congr 1
      exact hiff.2 fun p hp hpb => hall p (positionsList_inbounds s p hp) hpb
  refine ⟨hmain, fun h0 => hmain.2 fun p hpin hpb => ?_⟩
  unfold boxCount at h0
  have := count_zero_no_cell s.tiles (fun t => t = Tile.BOX) h0 p Tile.BOX hpb
  simp at this

def stC3 : State := ⟨[[Tile.EMPTY]], [[BackgroundTile.TARGET]], 1, 1⟩

theorem C3_witness :
    rectTiles stC3 ∧ rectBackground stC3 ∧ boxCount stC3.tiles = 0 ∧
      stC3.win = some true :=
  ⟨by decide, by decide, by decide,
    (C3_win_iff stC3 (by decide) (by decide)).2 (by decide)⟩

/-- C4: after `k` successful moves from `[s0]`, `k` undos all return true
and restore the history to exactly `[s0]` (so `current()` equals the
initial grid in value), and one more `undo` returns false leaving the
history unchanged. -/
theorem C4_undo_inverse (s0 : State) (ds : List Vector2) (g : Game)
    (h : movesOk (Game.init s0) ds = some g) :
    (undoTimes g ds.length).1 = List.replicate ds.length true ∧
    (undoTimes g ds.length).2 = Game.init s0 ∧
    (undoTimes g ds.length).2.current = some s0 ∧
    ((undoTimes g ds.length).2).undo = (false, (undoTimes g ds.length).2) := by
  obtain ⟨tail, htail, hlen⟩ := movesOk_state ds (Game.init s0) g h
  have hg : g = ⟨[s0] ++ tail⟩ := by
    cases g with
    | mk st =>
      simp only [Game.init] at htail
      rw [htail]
  subst hg
  rw [undoTimes_replicate ds.length [s0] (by simp) tail hlen]
  refine ⟨rfl, rfl, ?_, ?_⟩
  · simp [Game.current]
  · simp [Game.undo, Game.init]

def stC4 : State := ⟨[[Tile.PLAYER, Tile.EMPTY]],
  [[BackgroundTile.EMPTY, BackgroundTile.EMPTY]], 1, 2⟩

def stC4b : State := ⟨[[Tile.EMPTY, Tile.PLAYER]],
  [[BackgroundTile.EMPTY, BackgroundTile.EMPTY]], 1, 2⟩

def gC4 : Game := ⟨[stC4, stC4b]⟩

theorem C4_witness :
    movesOk (Game.init stC4) [RIGHT] = some gC4 ∧
    ((undoTimes gC4 [RIGHT].length).1 = List.replicate [RIGHT].length true ∧
     (undoTimes gC4 [RIGHT].length).2 = Game.init stC4 ∧
     (undoTimes gC4 [RIGHT].length).2.current = some stC4 ∧
     ((undoTimes gC4 [RIGHT].length).2).undo =
       (false, (undoTimes gC4 [RIGHT].length).2)) :=
  ⟨by decide, C4_undo_inverse stC4 [RIGHT] gC4 (by decide)⟩

def cexC5 : List Char := "1 2\npx.\n..o".toList

def stC5 : State :=
  ⟨[[Tile.PLAYER, Tile.BOX, Tile.EMPTY]],
   [[BackgroundTile.EMPTY, BackgroundTile.EMPTY, BackgroundTile.TARGET]], 1, 3⟩

/-- C5 counterexample: the header declares width 2 but the single tile row
has 3 characters, yet `parse_level` accepts the input (the claim says any
such input must be rejected). -/
theorem C5_counterexample :
    splitlines cexC5 = ["1 2".toList, "px.".toList, "..o".toList] ∧
    splitWS ("1 2".toList) = [['1'], ['2']] ∧
    pyInt ['2'] = some 2 ∧
    ("px.".toList).length = 3 ∧
    parse_level cexC5 = some stC5 := by
  refine ⟨by decide, by decide, by decide, by decide, by decide⟩

/-- Converse of `mapOpt_some_all`: if every element maps successfully,
the whole `list(map(...))` succeeds. -/
theorem mapOpt_all_some (f : α → Option β) (l : List α)
    (h : ∀ a ∈ l, (f a).isSome = true) : ∃ l', mapOpt f l = some l' := by
  induction l with
  | nil => exact ⟨[], rfl⟩
  | cons x xs ih =>
    obtain ⟨b, hb⟩ := Option.isSome_iff_exists.1 (h x (by simp))
    obtain ⟨bs, hbs⟩ := ih fun a ha => h a (by simp [ha])
    refine ⟨b :: bs, ?_⟩
    unfold mapOpt
    rw [hb]
    dsimp only
    rw [hbs]
    rfl

def txtC5short : List Char := "3 3\np..\n...".toList

def stC5short : State :=
  ⟨[[Tile.PLAYER, Tile.EMPTY, Tile.EMPTY],
    [Tile.EMPTY, Tile.EMPTY, Tile.EMPTY]], [], 2, 3⟩

/-- C5 amended: `parse_level` succeeds, i.e. returns `None` exactly when,
and only when, the header line is missing or does not consist of exactly
two integer tokens, an unrecognized character occurs in either sliced
layer, or the tile slice is empty (first conjunct, an `iff`); row lengths
and the line count are never validated: in particular the input
`"3 3\np..\n..."`, which has only 3 of the 7 lines its header promises,
is still accepted (second conjunct). -/
theorem C5_amended_parse_rejections :
    (∀ text : List Char,
      (parse_level text).isSome = true ↔
        ∃ l0 rest, splitlines text = l0 :: rest ∧
        ∃ t1 t2 n m, splitWS l0 = [t1, t2] ∧
          pyInt t1 = some n ∧ pyInt t2 = some m ∧
          pySlice (splitlines text) 1 (n + 1) ≠ [] ∧
          (∀ ln ∈ pySlice (splitlines text) 1 (n + 1),
            ∀ c ∈ ln, (parse_tile c).isSome = true) ∧
          (∀ ln ∈ pySlice (splitlines text) (n + 1) (2 * n + 1),
            ∀ c ∈ ln, (parse_background_tile c).isSome = true)) ∧
    (pyInt ['3'] = some 3 ∧ (splitlines txtC5short).length = 3 ∧
      parse_level txtC5short = some stC5short) := by
  refine ⟨?_, by decide, by decide, by decide⟩
  intro text
  constructor
  · intro hsome
    obtain ⟨s, hs⟩ := Option.isSome_iff_exists.1 hsome
    obtain ⟨l0, rest, n, m, hls, ⟨t1, t2, hws, hn, hm⟩, tiles, background,
      r0, tr, htl, hbg, htiles, _⟩ := parse_level_some text s hs
    refine ⟨l0, rest, hls, t1, t2, n, m, hws, hn, hm, ?_, ?_, ?_⟩
    · intro hc
      rw [hc] at htl
      have hlen := mapOpt_length _ _ _ htl
      rw [htiles] at hlen
      simp at hlen
    · intro ln hln c hc
      have h1 := mapOpt_some_all _ _ _ htl ln hln
      obtain ⟨row, hrow⟩ := Option.isSome_iff_exists.1 h1
      exact mapOpt_some_all _ _ _ hrow c hc
    · intro ln hln c hc
      have h1 := mapOpt_some_all _ _ _ hbg ln hln
      obtain ⟨row, hrow⟩ := Option.isSome_iff_exists.1 h1
      exact mapOpt_some_all _ _ _ hrow c hc
  · rintro ⟨l0, rest, hls, t1, t2, n, m, hws, hn, hm, hne, htlc, hbgc⟩
    have h1 : ∀ ln ∈ pySlice (splitlines text) 1 (n + 1),
        (mapOpt parse_tile ln).isSome = true := by
      intro ln hln
      obtain ⟨row, hrow⟩ := mapOpt_all_some parse_tile ln (htlc ln hln)
      rw [hrow]
      rfl
    have h2 : ∀ ln ∈ pySlice (splitlines text) (n + 1) (2 * n + 1),
        (mapOpt parse_background_tile ln).isSome = true := by
      intro ln hln
      obtain ⟨row, hrow⟩ := mapOpt_all_some parse_background_tile ln (hbgc ln hln)
      rw [hrow]
      rfl
    obtain ⟨tiles, htiles⟩ :=
      mapOpt_all_some (fun ln => mapOpt parse_tile ln) _ h1
    obtain ⟨background, hbg⟩ :=
      mapOpt_all_some (fun ln => mapOpt parse_background_tile ln) _ h2
    have htne : tiles ≠ [] := by
      intro hc
      have hlen := mapOpt_length _ _ _ htiles
      rw [hc] at hlen
      exact hne (List.eq_nil_of_length_eq_zero hlen.symm)
    unfold parse_level
    rw [hls] at htiles hbg ⊢
    dsimp only
    rw [hws]
    dsimp only
    rw [hn, hm]
    dsimp only
    rw [htiles, hbg]
    dsimp only
    cases tiles with
    | nil => exact absurd rfl htne
    | cons r0 tr =>
      unfold mkState
      rfl

def txtC5w : List Char := "1 1\np\n.".toList

theorem C5_witness :
    (parse_level txtC5w).isSome = true ∧
    (∃ l0 rest, splitlines txtC5w = l0 :: rest ∧
      ∃ t1 t2 n m, splitWS l0 = [t1, t2] ∧
        pyInt t1 = some n ∧ pyInt t2 = some m ∧
        pySlice (splitlines txtC5w) 1 (n + 1) ≠ [] ∧
        (∀ ln ∈ pySlice (splitlines txtC5w) 1 (n + 1),
          ∀ c ∈ ln, (parse_tile c).isSome = true) ∧
        (∀ ln ∈ pySlice (splitlines txtC5w) (n + 1) (2 * n + 1),
          ∀ c ∈ ln, (parse_background_tile c).isSome = true)) :=
  ⟨by decide, (C5_amended_parse_rejections.1 txtC5w).1 (by decide)⟩

def cexC6 : List Char := "2 2\n..\n.\n..\n..".toList

def stC6 : State :=
  ⟨[[Tile.EMPTY, Tile.EMPTY], [Tile.EMPTY]],
   [[BackgroundTile.EMPTY, BackgroundTile.EMPTY],
    [BackgroundTile.EMPTY, BackgroundTile.EMPTY]], 2, 2⟩

/-- C6 counterexample: this input parses successfully into a ragged grid
(second tile row shorter than the first); scanning positions during
`Game.move` then reads `tiles[1][1]`, which raises `IndexError` in the
source (modelled as `none`), so move resolution is not exception-free on
every successfully parsed level. -/
theorem C6_counterexample :
    parse_level cexC6 = some stC6 ∧ (Game.init stC6).move RIGHT = none := by
  refine ⟨by decide, by decide⟩

/-- C6 amended: on a rectangular grid (every tile row as long as the
declared width, row count equal to the declared length — which the spec's
level grammar guarantees), `Game.move` never raises: it always returns an
ordinary boolean outcome. -/
theorem C6_amended_no_crash (g : Game) (s : State) (d : Vector2)
    (hl : g.state.getLast? = some s) (hrect : rectTiles s) :
    ∃ b g', g.move d = some (b, g') := by
  unfold Game.move
  rw [hl]
  dsimp only
  cases hsc : moveScan d s s.positionsList with
  | none =>
    exact absurd hsc (moveScan_ne_none d s.positionsList s hrect
      (fun p hp => positionsList_inbounds s p hp))
  | some r =>
    cases r with
    | none => exact ⟨false, g, rfl⟩
    | some s' => exact ⟨true, ⟨g.state ++ [s']⟩, rfl⟩

def stC6w : State := ⟨[[Tile.PLAYER]], [[BackgroundTile.EMPTY]], 1, 1⟩

theorem C6_witness :
    (Game.init stC6w).state.getLast? = some stC6w ∧ rectTiles stC6w ∧
      ∃ b g', (Game.init stC6w).move RIGHT = some (b, g') :=
  ⟨by decide, by decide,
    C6_amended_no_crash (Game.init stC6w) stC6w RIGHT (by decide) (by decide)⟩

/-- C7: under the default `CAN_MULTIPUSH = false`, `move_box` into a cell
holding a second box always fails with the grid unchanged, and a player
move that would push a box into a second box fails with the grid
unchanged (so no move ever displaces more than one box). -/
theorem C7_push_into_box_fails :
    (∀ (f : Nat) (s : State) (b d : Vector2),
      pyGet2 s.tiles (b + d) = some Tile.BOX →
      State.move_box (f + 1) s b d = some (false, s)) ∧
    (∀ (s : State) (p d : Vector2),
      pyGet2 s.tiles (p + d) = some Tile.BOX →
      pyGet2 s.tiles (p + d + d) = some Tile.BOX →
      s.move_player p d = some (false, s)) := by
  refine ⟨move_box_blocked, ?_⟩
  intro s p d hbox hbox2
  unfold State.move_player
  dsimp only
  by_cases h1 : s.is_inbounds (p + d)
  · rw [if_neg (by simpa using h1), hbox]
    dsimp only
    rw [if_neg (by decide), if_pos rfl]
    have hL : 1 ≤ s.length := by
      rw [State.is_inbounds_iff] at h1
      omega
    obtain ⟨f, hf⟩ : ∃ f, s.length + s.width = f + 1 :=
      ⟨s.length + s.width - 1, by omega⟩
    rw [hf, move_box_blocked f s (p + d) d hbox2]
  · rw [if_pos (by simpa using h1)]

def stC7 : State :=
  ⟨[[Tile.PLAYER, Tile.BOX, Tile.BOX, Tile.EMPTY]],
   [[BackgroundTile.EMPTY, BackgroundTile.EMPTY, BackgroundTile.EMPTY,
     BackgroundTile.EMPTY]], 1, 4⟩

theorem C7_witness :
    pyGet2 stC7.tiles (⟨0, 0⟩ + RIGHT) = some Tile.BOX ∧
    pyGet2 stC7.tiles (⟨0, 0⟩ + RIGHT + RIGHT) = some Tile.BOX ∧
    stC7.move_player ⟨0, 0⟩ RIGHT = some (false, stC7) :=
  ⟨by decide, by decide,
    C7_push_into_box_fails.2 stC7 ⟨0, 0⟩ RIGHT (by decide) (by decide)⟩

def txtC8 : List Char := "1 3\npp.\n...".toList

def stC8 : State :=
  ⟨[[Tile.PLAYER, Tile.PLAYER, Tile.EMPTY]],
   [[BackgroundTile.EMPTY, BackgroundTile.EMPTY, BackgroundTile.EMPTY]], 1, 3⟩

def stC8b : State :=
  ⟨[[Tile.EMPTY, Tile.PLAYER, Tile.EMPTY]],
   [[BackgroundTile.EMPTY, BackgroundTile.EMPTY, BackgroundTile.EMPTY]], 1, 3⟩

/-- C8 counterexample: a parsed grid with two `Player` tiles on which
`move(RIGHT)` returns `True` and appends a snapshot (the first player is
moved onto the second, which is overwritten), contradicting the claim
that `move` always fails when the player count differs from one. -/
theorem C8_counterexample :
    parse_level txtC8 = some stC8 ∧
    playerCount stC8.tiles = 2 ∧
    (Game.init stC8).move RIGHT = some (true, ⟨[stC8, stC8b]⟩) := by
  refine ⟨by decide, by decide, by decide⟩

/-- C8 amended: when the grid holds zero `Player` tiles, `move` can never
succeed: whenever it returns a boolean at all, the boolean is `False` and
the history is unchanged.  (With more than one player the move may
succeed by moving the first movable player in row-major order.) -/
theorem C8_amended_no_player_fails (g g' : Game) (s : State) (d : Vector2)
    (b : Bool)
    (hl : g.state.getLast? = some s)
    (hnp : playerCount s.tiles = 0)
    (h : g.move d = some (b, g')) :
    b = false ∧ g' = g := by
  unfold playerCount at hnp
  have hnop : ∀ (p : Vector2), pyGet2 s.tiles p ≠ some Tile.PLAYER := by
    intro p hc
    have := count_zero_no_cell s.tiles (fun t => t = Tile.PLAYER) hnp p
      Tile.PLAYER hc
    simp at this
  unfold Game.move at h
  rw [hl] at h
  dsimp only at h
  cases hsc : moveScan d s s.positionsList with
  | none => rw [hsc] at h; exact Option.noConfusion h
  | some r =>
    rw [hsc] at h
    cases r with
    | none =>
      dsimp only at h
      have heq := Option.some.inj h
      exact ⟨(congrArg Prod.fst heq).symm, (congrArg Prod.snd heq).symm⟩
    | some s' =>
      exact absurd hsc (moveScan_no_player d s.positionsList s hnop s')

def stC8w : State := ⟨[[Tile.EMPTY]], [[BackgroundTile.EMPTY]], 1, 1⟩

theorem C8_witness :
    (Game.init stC8w).state.getLast? = some stC8w ∧
    playerCount stC8w.tiles = 0 ∧
    (Game.init stC8w).move RIGHT = some (false, Game.init stC8w) ∧
    (false = false ∧ Game.init stC8w = Game.init stC8w) :=
  ⟨by decide, by decide, by decide,
    C8_amended_no_player_fails (Game.init stC8w) (Game.init stC8w) stC8w
      RIGHT false (by decide) (by decide) (by decide)⟩

/-- C9: every successful `move(d)` appends exactly one new snapshot — a
value independent of every prior entry (the source deep-copies before
mutating, which is what licenses this value-level model) — leaving all
earlier history entries unchanged, and `current()` becomes that new
snapshot. -/
theorem C9_move_appends_snapshot (g g' : Game) (d : Vector2)
    (h : g.move d = some (true, g')) :
    ∃ s', g'.state = g.state ++ [s'] ∧
      g'.state.length = g.state.length + 1 ∧
      (∀ i, i < g.state.length → g'.state.get? i = g.state.get? i) ∧
      g'.current = some s' := by
  obtain ⟨s, s', hl, hsc, happ⟩ := game_move_true g g' d h
  refine ⟨s', happ, by simp [happ], ?_, ?_⟩
  · intro i hi
    rw [happ]
    exact List.get?_append hi
  · unfold Game.current
    rw [happ]
    exact List.getLast?_concat g.state

def stC9 : State := ⟨[[Tile.PLAYER, Tile.EMPTY]],
  [[BackgroundTile.EMPTY, BackgroundTile.EMPTY]], 1, 2⟩

def stC9b : State := ⟨[[Tile.EMPTY, Tile.PLAYER]],
  [[BackgroundTile.EMPTY, BackgroundTile.EMPTY]], 1, 2⟩

theorem C9_witness :
    (Game.init stC9).move RIGHT = some (true, ⟨[stC9, stC9b]⟩) ∧
      ∃ s', (⟨[stC9, stC9b]⟩ : Game).state = (Game.init stC9).state ++ [s'] ∧
        (⟨[stC9, stC9b]⟩ : Game).state.length =
          (Game.init stC9).state.length + 1 ∧
        (∀ i, i < (Game.init stC9).state.length →
          (⟨[stC9, stC9b]⟩ : Game).state.get? i =
            (Game.init stC9).state.get? i) ∧
        (⟨[stC9, stC9b]⟩ : Game).current = some s' :=
  ⟨by decide,
    C9_move_appends_snapshot (Game.init stC9) ⟨[stC9, stC9b]⟩ RIGHT (by decide)⟩

def exC10 : List Char := "2 2\np..\n..\n...\n..".toList

def stC10 : State :=
  ⟨[[Tile.PLAYER, Tile.EMPTY, Tile.EMPTY], [Tile.EMPTY, Tile.EMPTY]],
   [[BackgroundTile.EMPTY, BackgroundTile.EMPTY, BackgroundTile.EMPTY],
    [BackgroundTile.EMPTY, BackgroundTile.EMPTY]], 2, 3⟩

def exW2 : List Char := "1 2\np.\n..".toList

def exW99 : List Char := "1 99\np.\n..".toList

/-- C10: a grid accepted by `parse_level` takes its dimensions from the
parsed rows themselves — `length` is the number of tile rows actually
sliced and `width` is the length of the first tile row; the header's
width token is never compared with row contents (changing it from 2 to 99
yields the identical grid), so rows of differing lengths are accepted. -/
theorem C10_dims_from_rows :
    (∀ (text : List Char) (s : State), parse_level text = some s →
      s.length = s.tiles.length ∧
      (∃ r0 tr, s.tiles = r0 :: tr ∧ s.width = r0.length) ∧
      ∃ l0 rest n m t1 t2, splitlines text = l0 :: rest ∧
        splitWS l0 = [t1, t2] ∧ pyInt t1 = some n ∧ pyInt t2 = some m ∧
        s.tiles.length = (pySlice (splitlines text) 1 (n + 1)).length) ∧
    (parse_level exC10 = some stC10 ∧ stC10.tiles.map List.length = [3, 2]) ∧
    (parse_level exW2 = parse_level exW99 ∧ (parse_level exW2).isSome = true) := by
  refine ⟨?_, ⟨by decide, by decide⟩, ⟨by decide, by decide⟩⟩
  intro text s h
  obtain ⟨l0, rest, n, m, hls, ⟨t1, t2, hws, hn, hm⟩, tiles, background,
    r0, tr, htl, hbg, htiles, hs⟩ := parse_level_some text s h
  subst hs
  refine ⟨rfl, ⟨r0, tr, htiles, by rw [htiles]⟩,
    l0, rest, n, m, t1, t2, hls, hws, hn, hm, ?_⟩
  exact mapOpt_length _ _ _ htl

def stC10w : State := ⟨[[Tile.PLAYER, Tile.EMPTY]],
  [[BackgroundTile.EMPTY, BackgroundTile.EMPTY]], 1, 2⟩

theorem C10_witness :
    parse_level exW2 = some stC10w ∧
    (stC10w.length = stC10w.tiles.length ∧
      (∃ r0 tr, stC10w.tiles = r0 :: tr ∧ stC10w.width = r0.length) ∧
      ∃ l0 rest n m t1 t2, splitlines exW2 = l0 :: rest ∧
        splitWS l0 = [t1, t2] ∧ pyInt t1 = some n ∧ pyInt t2 = some m ∧
        stC10w.tiles.length = (pySlice (splitlines exW2) 1 (n + 1)).length) :=
  ⟨by decide, C10_dims_from_rows.1 exW2 stC10w (by decide)⟩
